import Mathlib

/-!
# Domain decomposition of `src/field/field.cpp`

A shallow embedding of the namespace `Prepare` of `field.cpp`
(`decomposeIndex`, `decomposeMetis`, `decomposeMesh`, `mergeFields`) and the
properties of its mesh slicer, ghost topology, index log and control flow.

Conventions of the embedding.

* `Int` of the source is an unsigned machine integer whose declaration is not
  in `field.cpp`; it is embedded as `Nat` and every statement below is about
  runs in which no index computation leaves the range of that type.
* `std::vector` is a `List`.  Reading `v[i]` is `v.getD i d`, writing is
  `v.set i x`; both are only meaningful for `i < v.length` (anything else is
  undefined behaviour in the source), and the theorems carry the hypotheses
  that keep every access in range.
* A pointer into an array (`pmesh = &meshes[ID]`, `pvLoc = &vLoc[ID]`,
  `pfLoc = &fLoc[ID]`) is read at the point where it is taken and written
  back with `List.set` when the loop body that uses it ends.
* `Constants::MAX_INT`, `DG::NP`, `MP::n_hosts` and the mesh globals are
  declared outside `field.cpp`; they are parameters.
-/

namespace Prepare

/-- The `IntVector` of the source. -/
abbrev IntVector := List Nat

/-- A facet: the ordered list of its vertex ids. -/
abbrev Facet := List Nat

/-- A cell: the list of its facet ids. -/
abbrev Cell := List Nat

/-- The `MeshObject` of the source, restricted to the three containers that
`decomposeMesh` fills: `mVertices`, `mFacets`, `mCells`. -/
structure MeshObject (V : Type) where
  mVertices : List V
  mFacets : List Facet
  mCells : List Cell
deriving DecidableEq

instance instInhabitedMeshObject (V : Type) : Inhabited (MeshObject V) := ⟨⟨[], [], []⟩⟩

/-- The globals of namespace `Mesh` that `Prepare` reads: `gVertices`,
`gFacets`, `gCells`, the owner and neighbour cell of every facet (`gFOC`,
`gFNC`), the number `gBCS` of interior cells and the named boundary groups
`gMesh.mBoundaries`. -/
structure GlobalMesh (V : Type) where
  gVertices : List V
  gFacets : List Facet
  gCells : List Cell
  gFOC : IntVector
  gFNC : IntVector
  gBCS : Nat
  mBoundaries : List (String × IntVector) := []
deriving DecidableEq

/-! ## Partition strategies -/

/-- The function `decomposeIndex` (lines 672-677):
`for(i = 0;i < gBCS;i++) blockIndex[i] = (i / (gBCS / total));`.
Both divisions are integer divisions of the source; a zero divisor is
undefined there and is `none` here. -/
def decomposeIndex (gBCS total : Nat) (blockIndex : IntVector) : Option IntVector :=
  (List.range gBCS).foldlM
    (fun bi i =>
      if total = 0 then none
      else if gBCS / total = 0 then none
      else some (bi.set i (i / (gBCS / total))))
    blockIndex

/-- One row of the dual graph, the body of `forEach(c,j)` in `decomposeMetis`
(lines 731-740): the neighbour across facet `f` of cell `i` is appended when
it is an interior cell. -/
def adjacencyRow (gFOC gFNC : IntVector) (gBCS i : Nat) (c : Cell)
    (adjncy : IntVector) : IntVector :=
  c.foldl
    (fun adj f =>
      if i = gFOC.getD f 0 then
        (if gFNC.getD f 0 < gBCS then adj ++ [gFNC.getD f 0] else adj)
      else
        (if gFOC.getD f 0 < gBCS then adj ++ [gFOC.getD f 0] else adj))
    adjncy

/-- The "build adjacency" loop of `decomposeMetis` (lines 727-742): the pair
`(xadj, adjncy)`. -/
def buildAdjacency {V : Type} (m : GlobalMesh V) : IntVector × IntVector :=
  let s := (List.range m.gBCS).foldl
    (fun (s : IntVector × IntVector) i =>
      (s.1 ++ [s.2.length],
        adjacencyRow m.gFOC m.gFNC m.gBCS i (m.gCells.getD i []) s.2))
    ([], [])
  (s.1 ++ [s.2.length], s.2)

/-- The external routine `METIS_PartGraphRecursive`, whose code is not part of
the repository: from `ncells`, `xadj`, `adjncy`, the number of parts and the
current content of the output buffer it yields its status code and the new
content of the buffer. -/
abbrev PartGraph := Nat → IntVector → IntVector → Nat → IntVector → Int × IntVector

/-- The function `decomposeMetis` (lines 715-760): build the adjacency, call
the external routine, keep what it wrote into `blockIndex`.  The status the
routine returns is not read. -/
def decomposeMetis {V : Type} (partGraph : PartGraph) (m : GlobalMesh V) (total : Nat)
    (blockIndex : IntVector) : IntVector :=
  let g := buildAdjacency m
  (partGraph m.gBCS g.1 g.2 total blockIndex).2

/-- The `DecomposeParams` of the source: the bucket hint `n` and the strategy
selector `type`, which `enrollDecompose` (lines 398-404) enrolls with the
options `XYZ`, `CELLID`, `METIS`, `NONE`, that is 0, 1, 2, 3. -/
structure DecomposeParams where
  n : IntVector
  type : Nat
deriving DecidableEq

/-- What `decomposeMesh` takes from outside `field.cpp` to choose a block
assignment: the external graph partitioner and `decomposeXYZ`, whose
floating-point geometry is kept abstract (it receives the bucket counts it is
called with and the current `blockIndex`). -/
structure Strategies where
  partGraph : PartGraph
  decomposeXYZ : IntVector → IntVector → IntVector

/-- The "decompose cells / choose" part of `decomposeMesh` (lines 801-820):
`blockIndex.assign(gBCS,0)`, the call of `decomposeMetis` of line 807, then the
chain on `dp.type`.  In the branch `dp.type == 0` the local vector `n` of lines
809-814 is computed and not used; `decomposeXYZ` is called with `dp.n`. -/
def chooseBlockIndex {V : Type} (ext : Strategies) (dp : DecomposeParams)
    (m : GlobalMesh V) (total : Nat) : Option IntVector :=
  let blockIndex := List.replicate m.gBCS 0
  let blockIndex := decomposeMetis ext.partGraph m total blockIndex
  if dp.type = 0 then some (ext.decomposeXYZ dp.n blockIndex)
  else if dp.type = 1 then decomposeIndex m.gBCS total blockIndex
  else if dp.type = 2 then some (decomposeMetis ext.partGraph m total blockIndex)
  else some blockIndex

/-! ## The mesh slicer -/

/-- The four arrays of length `total` that `decomposeMesh` allocates at lines
792-799: `meshes`, `vLoc`, `fLoc`, `cLoc`. -/
structure SliceState (V : Type) where
  meshes : List (MeshObject V)
  vLoc : List IntVector
  fLoc : List IntVector
  cLoc : List IntVector
deriving DecidableEq

/-- Lines 792-799: empty meshes and index logs, `vLoc[i].assign(gVertices.size(),0)`,
`fLoc[i].assign(gFacets.size(),0)`. -/
def initSlice {V : Type} (m : GlobalMesh V) (total : Nat) : SliceState V :=
  { meshes := List.replicate total ⟨[], [], []⟩
    vLoc := List.replicate total (List.replicate m.gVertices.length 0)
    fLoc := List.replicate total (List.replicate m.gFacets.length 0)
    cLoc := List.replicate total [] }

/-- Lines 838-840: `forEach(f,k) (*pvLoc)[f[k]] = 1;`. -/
def markFacet (f : Facet) (pvLoc : IntVector) : IntVector :=
  f.foldl (fun pv fk => pv.set fk 1) pvLoc

/-- Lines 835-841: for every facet id `c[j]` of the cell, mark the facet in
`pfLoc` and its vertices in `pvLoc`.  The result is `(pvLoc, pfLoc)`. -/
def markCell (gFacets : List Facet) (c : Cell) (pvLoc pfLoc : IntVector) :
    IntVector × IntVector :=
  c.foldl
    (fun s cj => (markFacet (gFacets.getD cj []) s.1, s.2.set cj 1))
    (pvLoc, pfLoc)

/-- The body of the "add cells" loop (lines 823-842) for cell `i`. -/
def addCell {V : Type} (m : GlobalMesh V) (blockIndex : IntVector) (st : SliceState V)
    (i : Nat) : SliceState V :=
  let c := m.gCells.getD i []
  let ID := blockIndex.getD i 0
  let pmesh := st.meshes.getD ID default
  let marks := markCell m.gFacets c (st.vLoc.getD ID []) (st.fLoc.getD ID [])
  { meshes := st.meshes.set ID { pmesh with mCells := pmesh.mCells ++ [c] }
    vLoc := st.vLoc.set ID marks.1
    fLoc := st.fLoc.set ID marks.2
    cLoc := st.cLoc.set ID (st.cLoc.getD ID [] ++ [i]) }

/-- The "add cells" loop (lines 822-842). -/
def addCells {V : Type} (m : GlobalMesh V) (blockIndex : IntVector) (st : SliceState V) :
    SliceState V :=
  (List.range m.gBCS).foldl (addCell m blockIndex) st

/-- The body shared by the two compaction loops of lines 850-866, over the
global container `items`, for the state `(out, loc, count)`:
`if(loc[i]) { out.push_back(items[i]); loc[i] = count++; } else loc[i] = MAX_INT;`. -/
def compactStep {α : Type} (MAX_INT : Nat) (d : α) (items : List α)
    (s : List α × IntVector × Nat) (i : Nat) : List α × IntVector × Nat :=
  if s.2.1.getD i 0 ≠ 0 then
    (s.1 ++ [items.getD i d], s.2.1.set i s.2.2, s.2.2 + 1)
  else
    (s.1, s.2.1.set i MAX_INT, s.2.2)

/-- One compaction loop (`count = 0; forEach(items,i) ...`, lines 850-857 for
the vertices and 859-866 for the facets).  The result is `(out, loc, count)`. -/
def compactLoop {α : Type} (MAX_INT : Nat) (d : α) (items : List α) (out : List α)
    (loc : IntVector) : List α × IntVector × Nat :=
  (List.range items.length).foldl (compactStep MAX_INT d items) (out, loc, 0)

/-- The body of the "add vertices & facets" loop (lines 845-867) for
partition `ID`. -/
def addVerticesFacets {V : Type} [Inhabited V] (MAX_INT : Nat) (m : GlobalMesh V)
    (st : SliceState V) (ID : Nat) : SliceState V :=
  let pmesh := st.meshes.getD ID default
  let rv := compactLoop MAX_INT default m.gVertices pmesh.mVertices (st.vLoc.getD ID [])
  let rf := compactLoop MAX_INT [] m.gFacets pmesh.mFacets (st.fLoc.getD ID [])
  { st with
    meshes := st.meshes.set ID { pmesh with mVertices := rv.1, mFacets := rf.1 }
    vLoc := st.vLoc.set ID rv.2.1
    fLoc := st.fLoc.set ID rf.2.1 }

/-- The "add vertices & facets" loop (lines 844-867). -/
def compactAll {V : Type} [Inhabited V] (MAX_INT : Nat) (m : GlobalMesh V) (total : Nat)
    (st : SliceState V) : SliceState V :=
  (List.range total).foldl (addVerticesFacets MAX_INT m) st

/-- The body of the "adjust IDs" loop (lines 869-885) for partition `ID`:
every vertex id of every local facet is replaced by `(*pvLoc)[id]`, every
facet id of every local cell by `(*pfLoc)[id]`. -/
def adjustIDs {V : Type} (st : SliceState V) (ID : Nat) : SliceState V :=
  let pmesh := st.meshes.getD ID default
  let pvLoc := st.vLoc.getD ID []
  let pfLoc := st.fLoc.getD ID []
  { st with
    meshes := st.meshes.set ID
      { pmesh with
        mFacets := pmesh.mFacets.map (fun f => f.map (fun v => pvLoc.getD v 0))
        mCells := pmesh.mCells.map (fun c => c.map (fun f => pfLoc.getD f 0)) } }

/-- The "adjust IDs" loop (lines 868-885). -/
def adjustAll {V : Type} (total : Nat) (st : SliceState V) : SliceState V :=
  (List.range total).foldl adjustIDs st

/-- Lines 792-885 of `decomposeMesh`: allocation, marking, compaction and
renumbering, for a given block assignment. -/
def sliceMesh {V : Type} [Inhabited V] (MAX_INT : Nat) (m : GlobalMesh V) (total : Nat)
    (blockIndex : IntVector) : SliceState V :=
  adjustAll total (compactAll MAX_INT m total (addCells m blockIndex (initSlice m total)))

/-- The body of the "inter mesh faces" loop (lines 889-897) for facet `i`. -/
def interMeshStep {V : Type} (m : GlobalMesh V) (total : Nat) (blockIndex : IntVector)
    (fLoc : List IntVector) (imesh : List IntVector) (i : Nat) : List IntVector :=
  if m.gFNC.getD i 0 < m.gBCS then
    let co := blockIndex.getD (m.gFOC.getD i 0) 0
    let cn := blockIndex.getD (m.gFNC.getD i 0) 0
    if co ≠ cn then
      let imesh1 := imesh.set (co * total + cn)
        (imesh.getD (co * total + cn) [] ++ [(fLoc.getD co []).getD i 0])
      imesh1.set (cn * total + co)
        (imesh1.getD (cn * total + co) [] ++ [(fLoc.getD cn []).getD i 0])
    else imesh
  else imesh

/-- The "inter mesh faces" loop (lines 886-898): the array `imesh` of
`total * total` lists. -/
def interMesh {V : Type} (m : GlobalMesh V) (total : Nat) (blockIndex : IntVector)
    (fLoc : List IntVector) : List IntVector :=
  (List.range m.gFacets.length).foldl (interMeshStep m total blockIndex fLoc)
    (List.replicate (total * total) [])

/-! ## The index log and the field files -/

/-- The `resize` of `std::vector<Int>`: truncate, or pad with zeros. -/
def resize (v : IntVector) (n : Nat) : IntVector :=
  v.take n ++ List.replicate (n - v.length) 0

/-- Lines 909-910: `for(Int j = 0; j < block;j++) cF[i - j] = C + block - 1 - j;`. -/
def expandBlock (block C i : Nat) (cF : IntVector) : IntVector :=
  (List.range block).foldl (fun cF j => cF.set (i - j) (C + block - 1 - j)) cF

/-- Lines 906-911: `for(int i = cF.size() - 1;i >= 0;i -= block) { ... }`, with
the loop counter `i` a signed integer.  `fuel` bounds the number of
iterations; `none` means that the bound was reached before `i` became
negative. -/
def expandLoop (block : Nat) : Nat → Int → IntVector → Option IntVector
  | fuel, i, cF =>
    if 0 ≤ i then
      match fuel with
      | 0 => none
      | fuel + 1 =>
        let ii := i.toNat / block
        let C := cF.getD ii 0 * block
        expandLoop block fuel (i - (block : Int)) (expandBlock block C i.toNat cF)
    else some cF

/-- The body of the "Expand cLoc" loop (lines 903-911) for one index log:
resize in place to `size * block`, then fill from the last slot downwards.
`cF.size() - 1` of an empty vector is `-1` once it is stored in the `int`. -/
def expandCF (block : Nat) (cF : IntVector) : Option IntVector :=
  let cF1 := resize cF (cF.length * block)
  expandLoop block (cF1.length + 1) ((cF1.length : Int) - 1) cF1

/-- The "Expand cLoc" loop (lines 899-912) over the partitions. -/
def expandCLoc (block total : Nat) (cLoc : List IntVector) : Option (List IntVector) :=
  (List.range total).foldlM
    (fun cl ID => (expandCF block (cl.getD ID [])).map (fun cF => cl.set ID cF))
    cLoc

/-- Modelled from the spec: `BaseField::writeInternal(os,&cLoc)`, declared
outside `field.cpp`.  It writes the values of the field at the indices listed
in the expanded index log, in the order of the log. -/
def writeInternal {α : Type} [Inhabited α] (field : List α) (cLoc : IntVector) : List α :=
  cLoc.map (fun i => field.getD i default)

/-- Modelled from the spec: `BaseField::readInternal(is,&cLoc)`, declared
outside `field.cpp`.  The `k`-th value read is stored at global index
`cLoc[k]` of the field. -/
def readInternal {α : Type} (field : List α) (cLoc : IntVector) (values : List α) : List α :=
  (cLoc.zip values).foldl (fun fld kv => fld.set kv.1 kv.2) field

/-- The field files that the write loop of `decomposeMesh` produces for
partition `ID` (lines 972-981): one list of values per field. -/
def fieldFiles {α : Type} [Inhabited α] (fields : List (List α)) (cLoc : List IntVector)
    (ID : Nat) : List (List α) :=
  fields.map (fun fld => writeInternal fld (cLoc.getD ID []))

/-- The body of `forEach(fields,i)` in `mergeFields` (lines 1046-1057) for
partition `ID` and field `i`, on the pair `(fields, count)`: a missing file is
skipped, otherwise `count` grows and the field is read in place. -/
def mergeOne {α : Type} (cLoc : List IntVector) (file : Nat → Nat → Option (List α))
    (ID : Nat) (s : List (List α) × Nat) (i : Nat) : List (List α) × Nat :=
  match file ID i with
  | none => s
  | some values => (s.1.set i (readInternal (s.1.getD i []) (cLoc.getD ID []) values), s.2 + 1)

/-- The "read and merge fields" loop of `mergeFields` (lines 1041-1058).  The
result is the fields after the loop and `count`. -/
def mergeLoop {α : Type} (total : Nat) (cLoc : List IntVector)
    (file : Nat → Nat → Option (List α)) (fields : List (List α)) : List (List α) × Nat :=
  (List.range total).foldl
    (fun s ID => (List.range fields.length).foldl (mergeOne cLoc file ID) s)
    (fields, 0)

/-- The function `findLastRefinedGrid` (lines 72-84): the loop
`for(;step >= 0;--step)` leaves at the first step whose mesh file opens;
`none` stands for the loop running out with `step < 0`. -/
def findLoop (meshExists : Nat → Bool) : Nat → Option Nat
  | 0 => if meshExists 0 then some 0 else none
  | s + 1 => if meshExists (s + 1) then some (s + 1) else findLoop meshExists s

/-- The function `findLastRefinedGrid` (lines 72-84), with line 82:
`if(step < 0) step = step_;`. -/
def findLastRefinedGrid (meshExists : Nat → Bool) (step_ : Nat) : Nat :=
  match findLoop meshExists step_ with
  | some step => step
  | none => step_

/-! ## `decomposeMesh` and `mergeFields` -/

/-- What a run does to the world outside the function, in order. -/
inductive Event (V α : Type) where
  | message (step : Nat)
  | cdWorkingDir
  | loadMesh (step : Nat)
  | createFields (step : Nat)
  | readFields (step : Nat)
  | mkdir (ID : Nat)
  | cdPartition (ID : Nat)
  | writeMesh (ID step : Nat) (mesh : MeshObject V)
      (boundaries : List (String × IntVector)) (ghosts : List (Nat × IntVector))
  | writeIndex (ID step : Nat) (cLoc : IntVector)
  | writeField (ID i step : Nat) (values : List α) (ghosts : List Nat)
  | readIndex (ID step : Nat)
  | readField (ID i step : Nat)
  | writeFields (step : Nat) (fields : List (List α))
  | destroyFields
deriving DecidableEq

/-- What `decomposeMesh` and `mergeFields` read from outside `field.cpp`:
`MP::n_hosts`, `DG::NP`, `Constants::MAX_INT`, the decomposition parameters
and strategies, the mesh that `LoadMesh(step,..)` leaves in the globals, the
internal values of the fields after `readFields(fields,step)`, whether
`System::cd` into the directory of partition `ID` succeeds, whether the mesh
file of a step exists, and the content of the index and field files of the
partition directories (`none`: the file cannot be opened). -/
structure Env (V α : Type) where
  n_hosts : Nat
  NP : Nat
  MAX_INT : Nat
  dp : DecomposeParams
  ext : Strategies
  loadMesh : Nat → GlobalMesh V
  readFields : Nat → List (List α)
  cdOk : Nat → Bool
  meshExists : Nat → Bool
  indexFile : Nat → Nat → IntVector
  fieldFile : Nat → Nat → Nat → Option (List α)

/-- Lines 940-953: the boundary groups of the global mesh in the local facet
numbering, without the facets that are absent and without the empty groups. -/
def localBoundaries (MAX_INT : Nat) (boundaries : List (String × IntVector))
    (pfLoc : IntVector) : List (String × IntVector) :=
  (boundaries.map (fun b =>
      (b.1, (b.2.map (fun f => pfLoc.getD f 0)).filter (fun f => decide (f ≠ MAX_INT))))).filter
    (fun b => decide (b.2.length ≠ 0))

/-- Lines 956-962 and 985-991: the neighbours `j` of partition `ID` with a
non-empty `imesh[ID * total + j]`, each with its list. -/
def ghostGroups (total : Nat) (imesh : List IntVector) (ID : Nat) : List (Nat × IntVector) :=
  ((List.range total).map (fun j => (j, imesh.getD (ID * total + j) []))).filter
    (fun g => decide (g.2.length ≠ 0))

/-- The "write mesh/index/fields" loop (lines 916-995) followed by lines
997-1007, over the partitions still to be written: `return 1` when the
directory of a partition cannot be entered, `return 0` at the end. -/
def writePartitions {V α : Type} [Inhabited α] (env : Env V α) (step total : Nat)
    (m : GlobalMesh V) (st : SliceState V) (imesh : List IntVector)
    (cLoc : List IntVector) (fields : List (List α)) :
    List Nat → List (Event V α) → Nat × List (Event V α)
  | [], ev => (0, ev ++ [Event.destroyFields])
  | ID :: rest, ev =>
    let ev1 := ev ++ [Event.mkdir ID, Event.cdPartition ID]
    if env.cdOk ID then
      let ghosts := ghostGroups total imesh ID
      let files := fieldFiles fields cLoc ID
      writePartitions env step total m st imesh cLoc fields rest
        (ev1 ++
          [Event.writeMesh ID step (st.meshes.getD ID default)
            (localBoundaries env.MAX_INT m.mBoundaries (st.fLoc.getD ID [])) ghosts,
           Event.writeIndex ID step (cLoc.getD ID [])] ++
          (List.range fields.length).map
            (fun i => Event.writeField ID i step (files.getD i []) (ghosts.map (fun g => g.1))) ++
          [Event.cdWorkingDir])
    else (1, ev1)

/-- The function `decomposeMesh` (lines 766-1008): the value it returns and
what it did.  `none` stands for a run that divides by zero or whose expansion
loop does not end. -/
def decomposeMesh {V α : Type} [Inhabited V] [Inhabited α] (env : Env V α) (step : Nat) :
    Option (Nat × List (Event V α)) :=
  let total := env.n_hosts
  if total = 1 then some (1, [])
  else
    let m := env.loadMesh step
    let fields := env.readFields step
    (chooseBlockIndex env.ext env.dp m total).bind (fun blockIndex =>
      let st := sliceMesh env.MAX_INT m total blockIndex
      let imesh := interMesh m total blockIndex st.fLoc
      (expandCLoc env.NP total st.cLoc).bind (fun cLoc =>
        some (writePartitions env step total m st imesh cLoc fields (List.range total)
          [Event.message step, Event.cdWorkingDir, Event.loadMesh step,
           Event.createFields step, Event.readFields step])))

/-- The function `mergeFields` (lines 1012-1066): the value it returns and
what it did. -/
def mergeFields {V α : Type} (env : Env V α) (step : Nat) : Nat × List (Event V α) :=
  let total := env.n_hosts
  let stepm := findLastRefinedGrid env.meshExists step
  let fields := env.readFields stepm
  let cLoc := (List.range total).map (fun ID => env.indexFile ID stepm)
  let r := mergeLoop total cLoc (fun ID i => env.fieldFile ID i step) fields
  (0,
    [Event.message step, Event.loadMesh stepm, Event.createFields stepm,
      Event.readFields stepm] ++
    (List.range total).map (fun ID => Event.readIndex ID stepm) ++
    ((List.range total).flatMap (fun ID =>
      (List.range fields.length).map (fun i => Event.readField ID i step))) ++
    (if r.2 ≠ 0 then [Event.writeFields step r.1] else []) ++
    [Event.destroyFields])

/-! ## Notions used in the statements -/

/-- The part of the four arrays that belongs to partition `p`. -/
def part {V : Type} (st : SliceState V) (p : Nat) :
    MeshObject V × IntVector × IntVector × IntVector :=
  (st.meshes.getD p default, st.vLoc.getD p [], st.fLoc.getD p [], st.cLoc.getD p [])

/-- All four arrays have `total` entries. -/
def Sized {V : Type} (st : SliceState V) (total : Nat) : Prop :=
  st.meshes.length = total ∧ st.vLoc.length = total ∧ st.fLoc.length = total ∧
    st.cLoc.length = total

/-- The effect of the body of the "add cells" loop on the partition that
receives cell `i`. -/
def addCellPart {V : Type} (m : GlobalMesh V) (i : Nat)
    (t : MeshObject V × IntVector × IntVector × IntVector) :
    MeshObject V × IntVector × IntVector × IntVector :=
  ({ t.1 with mCells := t.1.mCells ++ [m.gCells.getD i []] },
   markFacet ((m.gCells.getD i []).flatMap (fun cj => m.gFacets.getD cj [])) t.2.1,
   markFacet (m.gCells.getD i []) t.2.2.1,
   t.2.2.2 ++ [i])

/-- The interior cells below `n` that `blockIndex` gives to partition `p`, in
increasing order. -/
def cellsOf (blockIndex : IntVector) (n p : Nat) : List Nat :=
  (List.range n).filter (fun i => decide (blockIndex.getD i 0 = p))

/-- The facet ids referenced by the cells of partition `p`. -/
def usedFacets {V : Type} (m : GlobalMesh V) (bi : IntVector) (p : Nat) : List Nat :=
  (cellsOf bi m.gBCS p).flatMap (fun i => m.gCells.getD i [])

/-- The vertex ids referenced by the facets of the cells of partition `p`. -/
def usedVertices {V : Type} (m : GlobalMesh V) (bi : IntVector) (p : Nat) : List Nat :=
  (cellsOf bi m.gBCS p).flatMap (fun i =>
    (m.gCells.getD i []).flatMap (fun cj => m.gFacets.getD cj []))

/-- The number of marked ids strictly below `g`. -/
def rank (loc : IntVector) (g : Nat) : Nat :=
  ((List.range g).filter (fun j => decide (loc.getD j 0 ≠ 0))).length

/-- The marked ids below `n`, in increasing order. -/
def markedIds (loc : IntVector) (n : Nat) : List Nat :=
  (List.range n).filter (fun j => decide (loc.getD j 0 ≠ 0))

/-- The effect of the body of the "add vertices & facets" loop on its own
partition. -/
def compactPart {V : Type} [Inhabited V] (MAX_INT : Nat) (m : GlobalMesh V)
    (t : MeshObject V × IntVector × IntVector × IntVector) :
    MeshObject V × IntVector × IntVector × IntVector :=
  ({ t.1 with
      mVertices := (compactLoop MAX_INT default m.gVertices t.1.mVertices t.2.1).1
      mFacets := (compactLoop MAX_INT [] m.gFacets t.1.mFacets t.2.2.1).1 },
   (compactLoop MAX_INT default m.gVertices t.1.mVertices t.2.1).2.1,
   (compactLoop MAX_INT [] m.gFacets t.1.mFacets t.2.2.1).2.1,
   t.2.2.2)

/-- The effect of the body of the "adjust IDs" loop on its own partition. -/
def adjustPart {V : Type} (t : MeshObject V × IntVector × IntVector × IntVector) :
    MeshObject V × IntVector × IntVector × IntVector :=
  ({ t.1 with
      mFacets := t.1.mFacets.map (fun f => f.map (fun v => t.2.1.getD v 0))
      mCells := t.1.mCells.map (fun c => c.map (fun f => t.2.2.1.getD f 0)) },
   t.2.1, t.2.2.1, t.2.2.2)

/-- The state after marking, as the compaction loop finds it. -/
def marked {V : Type} (m : GlobalMesh V) (total : Nat) (blockIndex : IntVector) :
    SliceState V :=
  addCells m blockIndex (initSlice m total)

/-- The state after the compaction loop. -/
def compacted {V : Type} [Inhabited V] (MAX_INT : Nat) (m : GlobalMesh V) (total : Nat)
    (blockIndex : IntVector) : SliceState V :=
  compactAll MAX_INT m total (marked m total blockIndex)

/-- The expanded index log in closed form: slot `p` holds
`L[p / block] * block + p % block`. -/
def expandSpec (block : Nat) (L : IntVector) : IntVector :=
  (List.range (L.length * block)).map (fun p => L.getD (p / block) 0 * block + p % block)

/-- The global facets that lie between partitions `A` and `B`: both sides are
interior cells, one in `A` and the other in `B`.  In increasing order. -/
def sharedFacets {V : Type} (m : GlobalMesh V) (blockIndex : IntVector) (A B : Nat) :
    List Nat :=
  (List.range m.gFacets.length).filter (fun i =>
    decide (m.gFNC.getD i 0 < m.gBCS ∧
      ((blockIndex.getD (m.gFOC.getD i 0) 0 = A ∧ blockIndex.getD (m.gFNC.getD i 0) 0 = B) ∨
       (blockIndex.getD (m.gFOC.getD i 0) 0 = B ∧ blockIndex.getD (m.gFNC.getD i 0) 0 = A))))

/-- Every facet with an interior neighbour cell has an interior owner cell
and occurs in the facet lists of both cells. -/
def GhostWellFormed {V : Type} (m : GlobalMesh V) : Prop :=
  ∀ i, i < m.gFacets.length → m.gFNC.getD i 0 < m.gBCS →
    m.gFOC.getD i 0 < m.gBCS ∧ i ∈ m.gCells.getD (m.gFOC.getD i 0) [] ∧
      i ∈ m.gCells.getD (m.gFNC.getD i 0) []

instance instDecidableGhostWellFormed {V : Type} (m : GlobalMesh V) :
    Decidable (GhostWellFormed m) := by
  unfold GhostWellFormed
  infer_instance

/-- The interior cells reference only existing facet ids and the facets only
existing vertex ids. -/
def ReferencesExist {V : Type} (m : GlobalMesh V) : Prop :=
  (∀ i, i < m.gBCS → ∀ f ∈ m.gCells.getD i [], f < m.gFacets.length) ∧
  (∀ f ∈ m.gFacets, ∀ v ∈ f, v < m.gVertices.length)

instance instDecidableReferencesExist {V : Type} (m : GlobalMesh V) :
    Decidable (ReferencesExist m) := by
  unfold ReferencesExist
  infer_instance

/-- Two triangles `(v0,v1,v2)` and `(v0,v2,v3)` that share the edge `[2,0]`,
facet 2.  Cells 0 and 1 are the interior cells, cells 2 to 5 the boundary
cells behind the four outer edges. -/
def twoCells : GlobalMesh (Int × Int) :=
  { gVertices := [(0, 0), (1, 0), (1, 1), (0, 1)]
    gFacets := [[0, 1], [1, 2], [2, 0], [2, 3], [3, 0]]
    gCells := [[0, 1, 2], [2, 3, 4], [0], [1], [3], [4]]
    gFOC := [0, 0, 0, 1, 1]
    gFNC := [2, 3, 1, 4, 5]
    gBCS := 2 }

/-- An environment for `twoCells` on two hosts: strategy `CELLID`, one field
with the values 5 and 9 on the interior cells, a partitioner that answers
with its status 1 and the assignment `[1, 0]`. -/
def twoHosts : Env (Int × Int) Int :=
  { n_hosts := 2
    NP := 1
    MAX_INT := 2147483647
    dp := { n := [1, 1, 1], type := 1 }
    ext := { partGraph := fun _ _ _ _ _ => (1, [1, 0]), decomposeXYZ := fun _ b => b }
    loadMesh := fun _ => twoCells
    readFields := fun _ => [[5, 9, 0, 0, 0, 0]]
    cdOk := fun _ => true
    meshExists := fun _ => true
    indexFile := fun _ _ => []
    fieldFile := fun _ _ _ => none }

/-- The local ids `loc` that a compaction loop leaves for the marks `marks`
over the global ids below `n`, with `count` entities kept: a marked id gets
the number of marked ids below it and an unmarked id the sentinel; the ids
that are not the sentinel are exactly the numbers below `count`; `count` is
the number of marked ids; on marked ids the local id grows strictly with the
global id. -/
def DenseIds (MAX_INT n : Nat) (marks loc : IntVector) (count : Nat) : Prop :=
  (∀ g, g < n → loc.getD g 0 = if marks.getD g 0 ≠ 0 then rank marks g else MAX_INT) ∧
  count = rank marks n ∧
  (∀ l, (∃ g, g < n ∧ loc.getD g 0 = l ∧ l ≠ MAX_INT) ↔ l < count) ∧
  (∀ g g', g < g' → g' < n → marks.getD g 0 ≠ 0 → marks.getD g' 0 ≠ 0 →
    loc.getD g 0 < loc.getD g' 0)

/-- The environment `twoHosts` after a run on both hosts: the index logs
`[0]` and `[1]` and, for every step, the field files with the values 50 and
90 are present in the two partition directories. -/
def twoHostsMerged : Env (Int × Int) Int :=
  { twoHosts with
    indexFile := fun ID _ => if ID = 0 then [0] else [1]
    fieldFile := fun ID _ _ => some (if ID = 0 then [50] else [90]) }

/-- The environment `twoHosts` with the strategy `METIS` (`type = 2`) and an
external partitioner that reports the failure status `-4` and leaves `[1, 0]`
in the output buffer. -/
def twoHostsGraphFailure : Env (Int × Int) Int :=
  { twoHosts with
    dp := { n := [1, 1, 1], type := 2 }
    ext := { partGraph := fun _ _ _ _ _ => (-4, [1, 0]), decomposeXYZ := fun _ b => b } }

/-- What the body of `forEach(c,j)` in `decomposeMetis` appends for facet `f`
of cell `i`: the cell on the other side when it is an interior cell. -/
def neighbourAcross (gFOC gFNC : IntVector) (gBCS i f : Nat) : IntVector :=
  if i = gFOC.getD f 0 then
    (if gFNC.getD f 0 < gBCS then [gFNC.getD f 0] else [])
  else
    (if gFOC.getD f 0 < gBCS then [gFOC.getD f 0] else [])

/-- The interior cells across the facets of cell `i`, in the order of its
facet list. -/
def neighbours {V : Type} (m : GlobalMesh V) (i : Nat) : IntVector :=
  (m.gCells.getD i []).flatMap (neighbourAcross m.gFOC m.gFNC m.gBCS i)

/-- Row `i` of a compressed adjacency structure: the entries of `adjncy` from
position `xadj[i]` up to, but not including, position `xadj[i+1]`. -/
def adjRow (xadj adjncy : IntVector) (i : Nat) : IntVector :=
  (adjncy.drop (xadj.getD i 0)).take (xadj.getD (i + 1) 0 - xadj.getD i 0)

/-- Every facet in the list of an interior cell is a facet of the mesh with
that cell as its owner or its neighbour, and every facet of the mesh with an
interior cell on both sides occurs in the facet lists of both cells. -/
def DualWellFormed {V : Type} (m : GlobalMesh V) : Prop :=
  (∀ i, i < m.gBCS → ∀ f ∈ m.gCells.getD i [],
    f < m.gFacets.length ∧ (m.gFOC.getD f 0 = i ∨ m.gFNC.getD f 0 = i)) ∧
  (∀ f, f < m.gFacets.length → m.gFOC.getD f 0 < m.gBCS → m.gFNC.getD f 0 < m.gBCS →
    f ∈ m.gCells.getD (m.gFOC.getD f 0) [] ∧ f ∈ m.gCells.getD (m.gFNC.getD f 0) [])

instance instDecidableDualWellFormed {V : Type} (m : GlobalMesh V) :
    Decidable (DualWellFormed m) := by
  unfold DualWellFormed
  infer_instance

/-! ## Auxiliary lemmas -/

theorem getD_set_eq {α : Type} (l : List α) (i j : Nat) (a d : α) :
    (l.set i a).getD j d = if i = j ∧ i < l.length then a else l.getD j d := by
  simp only [List.getD_eq_getElem?_getD, List.getElem?_set]
  by_cases h : i = j
  · subst h
    by_cases h2 : i < l.length
    · simp [h2]
    · simp [h2, List.getElem?_eq_none (Nat.le_of_not_lt h2)]
  · simp [h]

theorem foldl_keyed {S T ι : Type} (Inv : S → Prop) (view : S → T) (step : S → ι → S)
    (key : ι → Bool) (G : ι → T → T)
    (hInv : ∀ s i, Inv s → Inv (step s i))
    (hstep : ∀ s i, Inv s → view (step s i) = if key i then G i (view s) else view s) :
    ∀ (l : List ι) (s : S), Inv s →
      Inv (l.foldl step s) ∧
      view (l.foldl step s) = (l.filter key).foldl (fun t i => G i t) (view s) := by
  intro l
  induction l with
  | nil => intro s hs; exact ⟨hs, rfl⟩
  | cons a l ih =>
    intro s hs
    have h := ih (step s a) (hInv s a hs)
    refine ⟨h.1, ?_⟩
    rw [List.foldl_cons, h.2, hstep s a hs]
    by_cases hk : key a = true
    · simp [List.filter_cons, hk]
    · simp [List.filter_cons, hk]

theorem filter_range_eq_self (n p : Nat) (h : p < n) :
    (List.range n).filter (fun i => decide (i = p)) = [p] := by
  induction n with
  | zero => omega
  | succ n ih =>
    rw [List.range_succ, List.filter_append]
    by_cases hp : p < n
    · have : n ≠ p := by omega
      simp [ih hp, this]
    · have hpn : p = n := by omega
      subst hpn
      have : (List.range p).filter (fun i => decide (i = p)) = [] := by
        rw [List.filter_eq_nil_iff]
        intro a ha
        have := List.mem_range.mp ha
        simp; omega
      simp [this]

theorem filter_range_eq_nil (n p : Nat) (h : n ≤ p) :
    (List.range n).filter (fun i => decide (i = p)) = [] := by
  rw [List.filter_eq_nil_iff]
  intro a ha
  have := List.mem_range.mp ha
  simp; omega

/-! ### Marking -/

theorem length_markFacet (f : Facet) (pv : IntVector) :
    (markFacet f pv).length = pv.length := by
  unfold markFacet
  induction f generalizing pv with
  | nil => rfl
  | cons a f ih => simp [List.foldl_cons, ih]

theorem getD_markFacet (f : Facet) (pv : IntVector) (g : Nat) (hg : g < pv.length) :
    (markFacet f pv).getD g 0 = if g ∈ f then 1 else pv.getD g 0 := by
  unfold markFacet
  induction f generalizing pv with
  | nil => simp
  | cons a f ih =>
    rw [List.foldl_cons, ih (pv.set a 1) (by simpa using hg)]
    by_cases h1 : g ∈ f
    · simp [h1]
    · by_cases h2 : g = a
      · subst h2; simp [h1, getD_set_eq, hg]
      · have h3 : ¬ a = g := fun h => h2 h.symm
        simp [h1, h2, getD_set_eq, h3]

theorem markFacet_append (f1 f2 : Facet) (pv : IntVector) :
    markFacet (f1 ++ f2) pv = markFacet f2 (markFacet f1 pv) := by
  simp [markFacet, List.foldl_append]

theorem markCell_fst (gFacets : List Facet) (c : Cell) (pv pf : IntVector) :
    (markCell gFacets c pv pf).1 = markFacet (c.flatMap (fun cj => gFacets.getD cj [])) pv := by
  unfold markCell
  induction c generalizing pv pf with
  | nil => rfl
  | cons a c ih =>
    rw [List.foldl_cons, ih, List.flatMap_cons, markFacet_append]

theorem markCell_snd (gFacets : List Facet) (c : Cell) (pv pf : IntVector) :
    (markCell gFacets c pv pf).2 = markFacet c pf := by
  unfold markCell markFacet
  induction c generalizing pv pf with
  | nil => rfl
  | cons a c ih => rw [List.foldl_cons, ih, List.foldl_cons]

theorem addCell_sized {V : Type} (m : GlobalMesh V) (bi : IntVector) (total : Nat)
    (st : SliceState V) (i : Nat) (h : Sized st total) : Sized (addCell m bi st i) total := by
  obtain ⟨h1, h2, h3, h4⟩ := h
  simp [Sized, addCell, h1, h2, h3, h4]

theorem addCell_part {V : Type} (m : GlobalMesh V) (bi : IntVector) (total p : Nat)
    (hp : p < total) (st : SliceState V) (i : Nat) (h : Sized st total) :
    part (addCell m bi st i) p =
      if decide (bi.getD i 0 = p) then addCellPart m i (part st p) else part st p := by
  obtain ⟨h1, h2, h3, h4⟩ := h
  by_cases hk : bi.getD i 0 = p
  · subst hk
    simp only [decide_True, if_true]
    simp only [part, addCell, addCellPart, getD_set_eq, h1, h2, h3, h4, hp, true_and,
      and_self, if_true, markCell_fst, markCell_snd]
  · simp only [hk, decide_False, Bool.false_eq_true, if_false]
    simp only [part, addCell, getD_set_eq, hk, false_and, if_false]

theorem addCells_part {V : Type} (m : GlobalMesh V) (bi : IntVector) (total p : Nat)
    (hp : p < total) (st : SliceState V) (h : Sized st total) :
    Sized (addCells m bi st) total ∧
    part (addCells m bi st) p =
      (cellsOf bi m.gBCS p).foldl (fun t i => addCellPart m i t) (part st p) := by
  unfold addCells cellsOf
  exact foldl_keyed (fun s => Sized s total) (fun s => part s p) (addCell m bi)
    (fun i => decide (bi.getD i 0 = p)) (addCellPart m)
    (fun s i hs => addCell_sized m bi total s i hs)
    (fun s i hs => addCell_part m bi total p hp s i hs) _ st h

theorem foldl_addCellPart {V : Type} (m : GlobalMesh V) (l : List Nat)
    (t : MeshObject V × IntVector × IntVector × IntVector) :
    l.foldl (fun t i => addCellPart m i t) t =
      ({ t.1 with mCells := t.1.mCells ++ l.map (fun i => m.gCells.getD i []) },
       markFacet (l.flatMap (fun i =>
          (m.gCells.getD i []).flatMap (fun cj => m.gFacets.getD cj []))) t.2.1,
       markFacet (l.flatMap (fun i => m.gCells.getD i [])) t.2.2.1,
       t.2.2.2 ++ l) := by
  induction l generalizing t with
  | nil => simp [markFacet]
  | cons a l ih =>
    rw [List.foldl_cons, ih]
    simp [addCellPart, markFacet_append]

theorem initSlice_sized {V : Type} (m : GlobalMesh V) (total : Nat) :
    Sized (initSlice m total) total := by
  simp [Sized, initSlice]

theorem initSlice_part {V : Type} (m : GlobalMesh V) (total p : Nat) (hp : p < total) :
    part (initSlice m total) p =
      (⟨[], [], []⟩, List.replicate m.gVertices.length 0,
        List.replicate m.gFacets.length 0, []) := by
  simp [part, initSlice, List.getD_eq_getElem?_getD, List.getElem?_replicate, hp]

/-- The state after the "add cells" loop, partition by partition. -/
theorem addCells_init_part {V : Type} (m : GlobalMesh V) (bi : IntVector) (total p : Nat)
    (hp : p < total) :
    part (addCells m bi (initSlice m total)) p =
      (⟨[], [], (cellsOf bi m.gBCS p).map (fun i => m.gCells.getD i [])⟩,
       markFacet (usedVertices m bi p) (List.replicate m.gVertices.length 0),
       markFacet (usedFacets m bi p) (List.replicate m.gFacets.length 0),
       cellsOf bi m.gBCS p) := by
  rw [(addCells_part m bi total p hp _ (initSlice_sized m total)).2, foldl_addCellPart,
    initSlice_part m total p hp]
  simp [usedVertices, usedFacets]

theorem addCells_init_sized {V : Type} (m : GlobalMesh V) (bi : IntVector) (total : Nat) :
    Sized (addCells m bi (initSlice m total)) total := by
  by_cases h : 0 < total
  · exact (addCells_part m bi total 0 h _ (initSlice_sized m total)).1
  · have h0 : total = 0 := by omega
    subst h0
    unfold addCells
    exact (foldl_keyed (fun s => Sized s 0) (fun _ => ()) (addCell m bi)
      (fun _ => true) (fun _ t => t)
      (fun s i hs => addCell_sized m bi 0 s i hs) (fun _ _ _ => rfl) _ _
      (initSlice_sized m 0)).1

/-! ### Compaction -/

theorem rank_succ (loc : IntVector) (g : Nat) :
    rank loc (g + 1) = if loc.getD g 0 ≠ 0 then rank loc g + 1 else rank loc g := by
  unfold rank
  rw [List.range_succ, List.filter_append]
  by_cases h : loc.getD g 0 = 0
  · rw [if_neg (fun c => c h), List.filter_cons, if_neg (by simpa using h)]
    simp
  · rw [if_pos h, List.filter_cons, if_pos (by simpa using h)]
    simp

theorem rank_mono (loc : IntVector) {a b : Nat} (h : a ≤ b) : rank loc a ≤ rank loc b := by
  induction b with
  | zero => have : a = 0 := by omega
            subst this; exact Nat.le_refl _
  | succ b ih =>
    by_cases hab : a = b + 1
    · subst hab; exact Nat.le_refl _
    · have := ih (by omega)
      rw [rank_succ]
      split <;> omega

theorem rank_lt_of_marked (loc : IntVector) {a b : Nat} (h : a < b) (ha : loc.getD a 0 ≠ 0) :
    rank loc a < rank loc b := by
  have h1 : rank loc (a + 1) = rank loc a + 1 := by rw [rank_succ]; exact if_pos ha
  have h2 := rank_mono loc (show a + 1 ≤ b by omega)
  omega

theorem rank_le (loc : IntVector) (g : Nat) : rank loc g ≤ g := by
  unfold rank
  have := List.length_filter_le (fun j => decide (loc.getD j 0 ≠ 0)) (List.range g)
  simpa using this

theorem compact_upto {α : Type} (MAX_INT : Nat) (d : α) (items out : List α)
    (loc : IntVector) (k : Nat) :
    let s := (List.range k).foldl (compactStep MAX_INT d items) (out, loc, 0)
    s.1 = out ++ (markedIds loc k).map (fun i => items.getD i d) ∧
    s.2.1.length = loc.length ∧
    (∀ j, s.2.1.getD j 0 =
      if j < k ∧ j < loc.length then (if loc.getD j 0 ≠ 0 then rank loc j else MAX_INT)
      else loc.getD j 0) ∧
    s.2.2 = rank loc k := by
  induction k with
  | zero => simp [markedIds, rank]
  | succ k ih =>
    simp only [List.range_succ, List.foldl_append, List.foldl_cons, List.foldl_nil]
    obtain ⟨h1, h2, h3, h4⟩ := ih
    have hk : ((List.range k).foldl (compactStep MAX_INT d items) (out, loc, 0)).2.1.getD k 0
        = loc.getD k 0 := by
      rw [h3 k]; simp
    generalize (List.range k).foldl (compactStep MAX_INT d items) (out, loc, 0) = s at *
    have hmk : markedIds loc (k + 1) =
        markedIds loc k ++ (if loc.getD k 0 ≠ 0 then [k] else []) := by
      unfold markedIds
      rw [List.range_succ, List.filter_append]
      by_cases h : loc.getD k 0 = 0
      · rw [if_neg (fun c => c h), List.filter_cons, if_neg (by simpa using h)]
        simp
      · rw [if_pos h, List.filter_cons, if_pos (by simpa using h)]
        simp
    by_cases hm : loc.getD k 0 = 0
    · have hs : compactStep MAX_INT d items s k = (s.1, s.2.1.set k MAX_INT, s.2.2) := by
        unfold compactStep
        rw [if_neg (by rw [hk]; exact fun h => h hm)]
      rw [hs, hmk, rank_succ, if_neg (fun h => h hm), if_neg (fun h => h hm)]
      refine ⟨by rw [List.append_nil]; exact h1, by rw [List.length_set]; exact h2, ?_, h4⟩
      intro j
      show (s.2.1.set k MAX_INT).getD j 0 = _
      rw [getD_set_eq, h2, h3 j]
      by_cases hjk : k = j
      · subst hjk
        by_cases hl : k < loc.length
        · rw [if_pos ⟨rfl, hl⟩, if_pos ⟨by omega, hl⟩, if_neg (fun h => h hm)]
        · rw [if_neg (fun h => hl h.2), if_neg (fun h => hl h.2), if_neg (fun h => hl h.2)]
      · rw [if_neg (fun h => hjk h.1)]
        by_cases hc : j < k ∧ j < loc.length
        · rw [if_pos hc, if_pos (show j < k + 1 ∧ j < loc.length from ⟨by omega, hc.2⟩)]
        · rw [if_neg hc,
            if_neg (show ¬ (j < k + 1 ∧ j < loc.length) from fun h => hc ⟨by omega, h.2⟩)]
    · have hs : compactStep MAX_INT d items s k =
          (s.1 ++ [items.getD k d], s.2.1.set k s.2.2, s.2.2 + 1) := by
        unfold compactStep
        rw [if_pos (by rw [hk]; exact hm)]
      rw [hs, hmk, rank_succ, if_pos hm, if_pos hm]
      refine ⟨by rw [h1, List.map_append, List.append_assoc]; rfl,
        by rw [List.length_set]; exact h2, ?_, by rw [h4]⟩
      intro j
      show (s.2.1.set k s.2.2).getD j 0 = _
      rw [getD_set_eq, h2, h3 j]
      by_cases hjk : k = j
      · subst hjk
        by_cases hl : k < loc.length
        · rw [if_pos ⟨rfl, hl⟩, if_pos ⟨by omega, hl⟩, if_pos hm, h4]
        · rw [if_neg (fun h => hl h.2), if_neg (fun h => hl h.2), if_neg (fun h => hl h.2)]
      · rw [if_neg (fun h => hjk h.1)]
        by_cases hc : j < k ∧ j < loc.length
        · rw [if_pos hc, if_pos (show j < k + 1 ∧ j < loc.length from ⟨by omega, hc.2⟩)]
        · rw [if_neg hc,
            if_neg (show ¬ (j < k + 1 ∧ j < loc.length) from fun h => hc ⟨by omega, h.2⟩)]

/-- What one compaction loop computes, when the marks cover the container. -/
theorem compactLoop_spec {α : Type} (MAX_INT : Nat) (d : α) (items out : List α)
    (loc : IntVector) (hlen : loc.length = items.length) :
    (compactLoop MAX_INT d items out loc).1 =
        out ++ (markedIds loc items.length).map (fun i => items.getD i d) ∧
    (compactLoop MAX_INT d items out loc).2.1.length = items.length ∧
    (∀ j, j < items.length → (compactLoop MAX_INT d items out loc).2.1.getD j 0 =
      if loc.getD j 0 ≠ 0 then rank loc j else MAX_INT) ∧
    (compactLoop MAX_INT d items out loc).2.2 = rank loc items.length := by
  have h := compact_upto MAX_INT d items out loc items.length
  obtain ⟨h1, h2, h3, h4⟩ := h
  refine ⟨h1, by rw [← hlen]; exact h2, ?_, h4⟩
  intro j hj
  have := h3 j
  simp only [hj, hlen, and_self, if_true] at this
  exact this

theorem addVerticesFacets_sized {V : Type} [Inhabited V] (MAX_INT : Nat) (m : GlobalMesh V)
    (total : Nat) (st : SliceState V) (ID : Nat) (h : Sized st total) :
    Sized (addVerticesFacets MAX_INT m st ID) total := by
  obtain ⟨h1, h2, h3, h4⟩ := h
  simp [Sized, addVerticesFacets, h1, h2, h3, h4]

theorem addVerticesFacets_part {V : Type} [Inhabited V] (MAX_INT : Nat) (m : GlobalMesh V)
    (total p : Nat) (hp : p < total) (st : SliceState V) (ID : Nat) (h : Sized st total) :
    part (addVerticesFacets MAX_INT m st ID) p =
      if decide (ID = p) then compactPart MAX_INT m (part st p) else part st p := by
  obtain ⟨h1, h2, h3, h4⟩ := h
  by_cases hk : ID = p
  · subst hk
    simp only [decide_True, if_true]
    simp only [part, addVerticesFacets, compactPart, getD_set_eq, h1, h2, h3, hp, true_and,
      and_self, if_true]
  · simp only [hk, decide_False, Bool.false_eq_true, if_false]
    simp only [part, addVerticesFacets, getD_set_eq, hk, false_and, if_false]

theorem compactAll_part {V : Type} [Inhabited V] (MAX_INT : Nat) (m : GlobalMesh V)
    (total p : Nat) (hp : p < total) (st : SliceState V) (h : Sized st total) :
    Sized (compactAll MAX_INT m total st) total ∧
    part (compactAll MAX_INT m total st) p = compactPart MAX_INT m (part st p) := by
  have := foldl_keyed (fun s => Sized s total) (fun s => part s p)
    (addVerticesFacets MAX_INT m) (fun i => decide (i = p)) (fun _ => compactPart MAX_INT m)
    (fun s i hs => addVerticesFacets_sized MAX_INT m total s i hs)
    (fun s i hs => addVerticesFacets_part MAX_INT m total p hp s i hs) (List.range total) st h
  rw [filter_range_eq_self total p hp] at this
  exact this

theorem adjustIDs_sized {V : Type} (total : Nat) (st : SliceState V) (ID : Nat)
    (h : Sized st total) : Sized (adjustIDs st ID) total := by
  obtain ⟨h1, h2, h3, h4⟩ := h
  simp [Sized, adjustIDs, h1, h2, h3, h4]

theorem adjustIDs_part {V : Type} (total p : Nat) (hp : p < total) (st : SliceState V)
    (ID : Nat) (h : Sized st total) :
    part (adjustIDs st ID) p =
      if decide (ID = p) then adjustPart (part st p) else part st p := by
  obtain ⟨h1, h2, h3, h4⟩ := h
  by_cases hk : ID = p
  · subst hk
    simp only [decide_True, if_true]
    simp only [part, adjustIDs, adjustPart, getD_set_eq, h1, hp, true_and, and_self, if_true]
  · simp only [hk, decide_False, Bool.false_eq_true, if_false]
    simp only [part, adjustIDs, getD_set_eq, hk, false_and, if_false]

theorem adjustAll_part {V : Type} (total p : Nat) (hp : p < total) (st : SliceState V)
    (h : Sized st total) :
    Sized (adjustAll total st) total ∧
    part (adjustAll total st) p = adjustPart (part st p) := by
  have := foldl_keyed (fun s => Sized s total) (fun s => part s p)
    adjustIDs (fun i => decide (i = p)) (fun _ => adjustPart)
    (fun s i hs => adjustIDs_sized total s i hs)
    (fun s i hs => adjustIDs_part total p hp s i hs) (List.range total) st h
  rw [filter_range_eq_self total p hp] at this
  exact this

theorem sliceMesh_eq {V : Type} [Inhabited V] (MAX_INT : Nat) (m : GlobalMesh V)
    (total : Nat) (bi : IntVector) :
    sliceMesh MAX_INT m total bi = adjustAll total (compacted MAX_INT m total bi) := rfl

theorem compacted_part {V : Type} [Inhabited V] (MAX_INT : Nat) (m : GlobalMesh V)
    (total : Nat) (bi : IntVector) (p : Nat) (hp : p < total) :
    part (compacted MAX_INT m total bi) p =
      compactPart MAX_INT m (part (marked m total bi) p) :=
  (compactAll_part MAX_INT m total p hp _ (addCells_init_sized m bi total)).2

theorem compacted_sized {V : Type} [Inhabited V] (MAX_INT : Nat) (m : GlobalMesh V)
    (total : Nat) (bi : IntVector) : Sized (compacted MAX_INT m total bi) total := by
  by_cases h : 0 < total
  · exact (compactAll_part MAX_INT m total 0 h _ (addCells_init_sized m bi total)).1
  · have h0 : total = 0 := by omega
    subst h0
    exact addCells_init_sized m bi 0

theorem sliceMesh_part {V : Type} [Inhabited V] (MAX_INT : Nat) (m : GlobalMesh V)
    (total : Nat) (bi : IntVector) (p : Nat) (hp : p < total) :
    part (sliceMesh MAX_INT m total bi) p =
      adjustPart (part (compacted MAX_INT m total bi) p) :=
  (adjustAll_part total p hp _ (compacted_sized MAX_INT m total bi)).2

/-! ### Expansion of the index log -/

theorem length_expandBlock (block C i : Nat) (cF : IntVector) :
    (expandBlock block C i cF).length = cF.length := by
  unfold expandBlock
  generalize List.range block = l
  induction l generalizing cF with
  | nil => rfl
  | cons a l ih => rw [List.foldl_cons, ih, List.length_set]

theorem expandBlock_upto (block C i : Nat) (cF : IntVector) (hi : i < cF.length) (k : Nat)
    (hk : k ≤ i + 1) (p : Nat) :
    ((List.range k).foldl (fun cF j => cF.set (i - j) (C + block - 1 - j)) cF).getD p 0 =
      if i + 1 - k ≤ p ∧ p ≤ i then C + block - 1 - (i - p) else cF.getD p 0 := by
  induction k with
  | zero =>
    rw [List.range_zero, List.foldl_nil, if_neg (by omega)]
  | succ k ih =>
    rw [List.range_succ, List.foldl_append, List.foldl_cons, List.foldl_nil, getD_set_eq,
      ih (by omega)]
    have hlen : ((List.range k).foldl (fun cF j => cF.set (i - j) (C + block - 1 - j)) cF).length
        = cF.length := by
      generalize List.range k = l
      clear ih hk hi
      induction l generalizing cF with
      | nil => rfl
      | cons a l ih => rw [List.foldl_cons, ih, List.length_set]
    rw [hlen]
    by_cases h1 : i - k = p
    · rw [if_pos ⟨h1, by omega⟩, if_pos (show i + 1 - (k + 1) ≤ p ∧ p ≤ i from ⟨by omega, by omega⟩)]
      have : i - p = k := by omega
      rw [this]
    · rw [if_neg (fun h => h1 h.1)]
      by_cases h2 : i + 1 - k ≤ p ∧ p ≤ i
      · rw [if_pos h2, if_pos (show i + 1 - (k + 1) ≤ p ∧ p ≤ i from ⟨by omega, h2.2⟩)]
      · rw [if_neg h2, if_neg (show ¬ (i + 1 - (k + 1) ≤ p ∧ p ≤ i) from fun h => h2 ⟨by omega, h.2⟩)]

theorem getD_expandBlock (block C i : Nat) (cF : IntVector) (hi : i < cF.length)
    (hk : block ≤ i + 1) (p : Nat) :
    (expandBlock block C i cF).getD p 0 =
      if i + 1 - block ≤ p ∧ p ≤ i then C + block - 1 - (i - p) else cF.getD p 0 :=
  expandBlock_upto block C i cF hi block hk p

theorem getD_resize_lt (L : IntVector) (n p : Nat) (hp : p < L.length) (hn : L.length ≤ n) :
    (resize L n).getD p 0 = L.getD p 0 := by
  unfold resize
  rw [List.take_of_length_le hn]
  simp [List.getD_eq_getElem?_getD, List.getElem?_append, hp]

theorem length_resize (L : IntVector) (n : Nat) : (resize L n).length = n := by
  unfold resize
  simp [List.length_take]
  omega

theorem expandLoop_spec (block : Nat) (hb : 1 ≤ block) (L : IntVector) :
    ∀ (m : Nat) (fuel : Nat) (cF : IntVector), m ≤ L.length → m + 1 ≤ fuel →
      cF.length = L.length * block →
      (∀ p, p < m * block → cF.getD p 0 = (resize L (L.length * block)).getD p 0) →
      (∀ p, m * block ≤ p → p < L.length * block →
        cF.getD p 0 = L.getD (p / block) 0 * block + p % block) →
      ∃ E, expandLoop block fuel ((m * block : Nat) - 1 : Int) cF = some E ∧
        E.length = L.length * block ∧
        ∀ p, p < L.length * block → E.getD p 0 = L.getD (p / block) 0 * block + p % block := by
  intro m
  induction m with
  | zero =>
    intro fuel cF _ _ hlen _ hdone
    refine ⟨cF, ?_, hlen, fun p hp => hdone p (by omega) hp⟩
    unfold expandLoop
    simp
  | succ m ih =>
    intro fuel cF hm hfuel hlen hkeep hdone
    obtain ⟨f, rfl⟩ : ∃ f, fuel = f + 1 := ⟨fuel - 1, by omega⟩
    have hmul : (m + 1) * block = m * block + block := by ring
    have hge : (0 : Int) ≤ (((m + 1) * block : Nat) : Int) - 1 := by
      have : 1 ≤ (m + 1) * block := by rw [hmul]; omega
      omega
    have htoNat : ((((m + 1) * block : Nat) : Int) - 1).toNat = m * block + block - 1 := by
      rw [hmul]; omega
    have hnext : ((((m + 1) * block : Nat) : Int) - 1) - (block : Int) =
        ((m * block : Nat) : Int) - 1 := by
      rw [hmul]; push_cast; ring
    have hmb : m * block + block ≤ L.length * block := by
      rw [← hmul]; exact Nat.mul_le_mul_right block hm
    have hdiv : (m * block + block - 1) / block = m :=
      Nat.div_eq_of_lt_le (by omega) (by rw [hmul]; omega)
    have hmlt : m < (m + 1) * block := by
      rw [hmul]
      have : m ≤ m * block := Nat.le_mul_of_pos_right m hb
      omega
    have hread : cF.getD m 0 = L.getD m 0 := by
      rw [hkeep m hmlt]
      exact getD_resize_lt L _ m (by omega) (Nat.le_mul_of_pos_right _ hb)
    unfold expandLoop
    rw [if_pos hge]
    simp only [htoNat, hdiv, hnext, hread]
    apply ih f _ (by omega) (by omega)
    · rw [length_expandBlock, hlen]
    · intro p hp
      rw [getD_expandBlock _ _ _ _ (by omega) (by omega), if_neg (by omega)]
      exact hkeep p (by rw [hmul]; omega)
    · intro p hp1 hp2
      rw [getD_expandBlock _ _ _ _ (by omega) (by omega)]
      by_cases hin : p ≤ m * block + block - 1
      · rw [if_pos ⟨by omega, hin⟩]
        have hpd : p / block = m :=
          Nat.div_eq_of_lt_le hp1 (by rw [hmul]; omega)
        have hpm : p % block = p - m * block := by
          have := Nat.div_add_mod p block
          rw [hpd, Nat.mul_comm] at this
          omega
        rw [hpd, hpm]
        omega
      · rw [if_neg (fun h => hin h.2)]
        exact hdone p (by rw [hmul]; omega) hp2

theorem expandCF_spec (block : Nat) (hb : 1 ≤ block) (L : IntVector) :
    expandCF block L = some (expandSpec block L) := by
  unfold expandCF
  simp only [length_resize]
  have h := expandLoop_spec block hb L L.length (L.length * block + 1)
    (resize L (L.length * block)) (Nat.le_refl _)
    (by have : L.length ≤ L.length * block := Nat.le_mul_of_pos_right _ hb
        omega)
    (length_resize _ _) (fun p _ => rfl) (fun p h1 h2 => by omega)
  obtain ⟨E, hE, hlen, hget⟩ := h
  rw [hE]
  congr 1
  apply List.ext_getElem?
  intro p
  unfold expandSpec
  by_cases hp : p < L.length * block
  · have h1 := hget p hp
    rw [List.getD_eq_getElem?_getD, List.getElem?_eq_getElem (by omega)] at h1
    rw [List.getElem?_eq_getElem (by omega), List.getElem?_map, List.getElem?_range hp]
    simp only [Option.getD_some] at h1
    rw [h1]
    rfl
  · rw [List.getElem?_eq_none (by omega), List.getElem?_eq_none (by simp; omega)]

theorem foldlM_some {σ ι : Type} (f : σ → ι → Option σ) (g : σ → ι → σ)
    (h : ∀ s i, f s i = some (g s i)) (l : List ι) (s : σ) :
    l.foldlM f s = some (l.foldl g s) := by
  induction l generalizing s with
  | nil => rfl
  | cons a l ih =>
    rw [List.foldlM_cons, h s a, List.foldl_cons]
    exact ih (g s a)

theorem expandCLoc_spec (block total : Nat) (hb : 1 ≤ block) (cLoc : List IntVector)
    (hlen : cLoc.length = total) :
    ∃ E, expandCLoc block total cLoc = some E ∧ E.length = total ∧
      ∀ p, p < total → E.getD p [] = expandSpec block (cLoc.getD p []) := by
  refine ⟨(List.range total).foldl
    (fun cl ID => cl.set ID (expandSpec block (cl.getD ID []))) cLoc, ?_, ?_, ?_⟩
  · unfold expandCLoc
    apply foldlM_some
    intro s i
    rw [expandCF_spec block hb]
    rfl
  · have := foldl_keyed (fun (s : List IntVector) => s.length = total) (fun _ => ())
      (fun cl ID => cl.set ID (expandSpec block (cl.getD ID []))) (fun _ => true)
      (fun _ t => t) (fun s i hs => by simpa using hs) (fun _ _ _ => rfl)
      (List.range total) cLoc hlen
    exact this.1
  · intro p hp
    have := foldl_keyed (fun (s : List IntVector) => s.length = total)
      (fun s => s.getD p [])
      (fun cl ID => cl.set ID (expandSpec block (cl.getD ID []))) (fun i => decide (i = p))
      (fun _ t => expandSpec block t) (fun s i hs => by simpa using hs)
      (fun s i hs => by
        show (s.set i _).getD p [] = _
        rw [getD_set_eq]
        by_cases h : i = p
        · subst h; simp [hs, hp]
        · simp [h])
      (List.range total) cLoc hlen
    have h2 := this.2
    beta_reduce at h2
    rw [h2, filter_range_eq_self total p hp]
    rfl

theorem mem_expandSpec (block : Nat) (hb : 1 ≤ block) (L : IntVector) (d : Nat) :
    d ∈ expandSpec block L ↔ d / block ∈ L := by
  unfold expandSpec
  rw [List.mem_map]
  constructor
  · rintro ⟨p, hp, rfl⟩
    have hp' := List.mem_range.mp hp
    have hk : p / block < L.length := (Nat.div_lt_iff_lt_mul (by omega)).mpr hp'
    have hd : (L.getD (p / block) 0 * block + p % block) / block = L.getD (p / block) 0 :=
      Nat.div_eq_of_lt_le (by omega) (by
        have := Nat.mod_lt p (show block > 0 by omega)
        rw [Nat.add_mul]; omega)
    rw [hd, List.getD_eq_getElem _ _ hk]
    exact List.getElem_mem _
  · intro hmem
    obtain ⟨k, hk, hLk⟩ := List.getElem_of_mem hmem
    have hmod := Nat.mod_lt d (show block > 0 by omega)
    have hkb : k * block + block ≤ L.length * block := by
      have : (k + 1) * block ≤ L.length * block := Nat.mul_le_mul_right block hk
      rw [Nat.add_mul] at this; omega
    refine ⟨k * block + d % block, List.mem_range.mpr (by omega), ?_⟩
    have h1 : (k * block + d % block) / block = k :=
      Nat.div_eq_of_lt_le (by omega) (by rw [Nat.add_mul]; omega)
    have h2 : (k * block + d % block) % block = d % block := by
      rw [Nat.mul_comm, Nat.mul_add_mod, Nat.mod_mod]
    rw [h1, h2, List.getD_eq_getElem _ _ hk, hLk, Nat.mul_comm]
    exact Nat.div_add_mod d block

/-! ### Scatter and gather -/

theorem length_readInternal {α : Type} (G : List α) (idx : IntVector) (vals : List α) :
    (readInternal G idx vals).length = G.length := by
  unfold readInternal
  generalize idx.zip vals = l
  induction l generalizing G with
  | nil => rfl
  | cons a l ih => rw [List.foldl_cons, ih, List.length_set]

theorem getElem?_read_write {α : Type} [Inhabited α] (F G : List α) (idx : IntVector)
    (d : Nat) :
    (readInternal G idx (writeInternal F idx))[d]? =
      if d ∈ idx then G[d]?.map (fun _ => F.getD d default) else G[d]? := by
  unfold readInternal writeInternal
  induction idx generalizing G with
  | nil => simp
  | cons a idx ih =>
    rw [List.map_cons, List.zip_cons_cons, List.foldl_cons, ih, List.getElem?_set]
    by_cases hda : a = d
    · subst hda
      by_cases hl : a < G.length
      · simp [hl]
      · simp [hl, List.getElem?_eq_none (Nat.le_of_not_lt hl)]
    · have hda' : ¬ d = a := fun h => hda h.symm
      simp [hda, hda']

theorem getElem?_scatter_all {α : Type} [Inhabited α] (F : List α) (E : Nat → IntVector)
    (IDs : List Nat) (G : List α) (d : Nat) :
    (IDs.foldl (fun g ID => readInternal g (E ID) (writeInternal F (E ID))) G)[d]? =
      if ∃ ID ∈ IDs, d ∈ E ID then G[d]?.map (fun _ => F.getD d default) else G[d]? := by
  induction IDs generalizing G with
  | nil => simp
  | cons a IDs ih =>
    rw [List.foldl_cons, ih, getElem?_read_write]
    by_cases h1 : d ∈ E a
    · have : ∃ ID ∈ a :: IDs, d ∈ E ID := ⟨a, List.mem_cons_self _ _, h1⟩
      rw [if_pos h1, if_pos this]
      by_cases h2 : ∃ ID ∈ IDs, d ∈ E ID
      · rw [if_pos h2]
        cases G[d]? <;> rfl
      · rw [if_neg h2]
    · rw [if_neg h1]
      by_cases h2 : ∃ ID ∈ IDs, d ∈ E ID
      · obtain ⟨ID, hID, hd⟩ := h2
        rw [if_pos ⟨ID, hID, hd⟩, if_pos ⟨ID, List.mem_cons_of_mem _ hID, hd⟩]
      · rw [if_neg h2, if_neg]
        rintro ⟨ID, hID, hd⟩
        rcases List.mem_cons.mp hID with rfl | h
        · exact h1 hd
        · exact h2 ⟨ID, h, hd⟩

/-- The effect of the merge loop on field `j`: the partitions are read in the
order `0 .. total-1`, those without a file are skipped. -/
theorem mergeLoop_field {α : Type} (total : Nat) (cLoc : List IntVector)
    (file : Nat → Nat → Option (List α)) (fields : List (List α)) (j : Nat)
    (hj : j < fields.length) :
    (mergeLoop total cLoc file fields).1.getD j [] =
      (List.range total).foldl
        (fun g ID => match file ID j with
          | none => g
          | some values => readInternal g (cLoc.getD ID []) values)
        (fields.getD j []) := by
  unfold mergeLoop
  have inner : ∀ (ID : Nat) (s : List (List α) × Nat), s.1.length = fields.length →
      ((List.range fields.length).foldl (mergeOne cLoc file ID) s).1.length = fields.length ∧
      ((List.range fields.length).foldl (mergeOne cLoc file ID) s).1.getD j [] =
        (match file ID j with
          | none => s.1.getD j []
          | some values => readInternal (s.1.getD j []) (cLoc.getD ID []) values) := by
    intro ID s hs
    have := foldl_keyed (fun (s : List (List α) × Nat) => s.1.length = fields.length)
      (fun s => s.1.getD j []) (mergeOne cLoc file ID) (fun i => decide (i = j))
      (fun _ g => match file ID j with
          | none => g
          | some values => readInternal g (cLoc.getD ID []) values)
      (fun s i hs => by
        unfold mergeOne
        cases file ID i with
        | none => exact hs
        | some v => simpa using hs)
      (fun s i hs => by
        by_cases h : i = j
        · subst h
          unfold mergeOne
          cases file ID i with
          | none => simp
          | some v => simp [getD_set_eq, hs, hj]
        · unfold mergeOne
          cases file ID i with
          | none => simp [h]
          | some v => simp [getD_set_eq, h])
      (List.range fields.length) s hs
    rw [filter_range_eq_self _ j hj] at this
    exact this
  have := foldl_keyed (fun (s : List (List α) × Nat) => s.1.length = fields.length)
    (fun s => s.1.getD j [])
    (fun s ID => (List.range fields.length).foldl (mergeOne cLoc file ID) s)
    (fun _ => true)
    (fun ID g => match file ID j with
        | none => g
        | some values => readInternal g (cLoc.getD ID []) values)
    (fun s ID hs => (inner ID s hs).1)
    (fun s ID hs => by
      have h := (inner ID s hs).2
      beta_reduce
      rw [h]
      rfl)
    (List.range total) (fields, 0) rfl
  have h2 := this.2
  beta_reduce at h2
  rw [h2]
  simp

/-! ### Ranks and marks -/

theorem length_markedIds (loc : IntVector) (n : Nat) :
    (markedIds loc n).length = rank loc n := rfl

theorem markedIds_succ (loc : IntVector) (n : Nat) :
    markedIds loc (n + 1) = markedIds loc n ++ (if loc.getD n 0 ≠ 0 then [n] else []) := by
  unfold markedIds
  rw [List.range_succ, List.filter_append]
  by_cases h : loc.getD n 0 = 0
  · rw [if_neg (fun c => c h), List.filter_cons, if_neg (by simpa using h)]
    simp
  · rw [if_pos h, List.filter_cons, if_pos (by simpa using h)]
    simp

theorem markedIds_rank (loc : IntVector) (n g : Nat) (hg : g < n) (hm : loc.getD g 0 ≠ 0) :
    (markedIds loc n)[rank loc g]? = some g := by
  induction n with
  | zero => omega
  | succ n ih =>
    rw [markedIds_succ, List.getElem?_append, length_markedIds]
    by_cases hgn : g < n
    · rw [if_pos (rank_lt_of_marked loc hgn hm)]
      exact ih hgn
    · have : g = n := by omega
      subst this
      rw [if_neg (by omega), if_pos hm, Nat.sub_self]
      rfl

theorem rank_surj (loc : IntVector) (n l : Nat) (hl : l < rank loc n) :
    ∃ g, g < n ∧ loc.getD g 0 ≠ 0 ∧ rank loc g = l := by
  induction n with
  | zero => simp [rank] at hl
  | succ n ih =>
    rw [rank_succ] at hl
    by_cases hm : loc.getD n 0 ≠ 0
    · rw [if_pos hm] at hl
      by_cases hln : l < rank loc n
      · obtain ⟨g, h1, h2, h3⟩ := ih hln
        exact ⟨g, by omega, h2, h3⟩
      · exact ⟨n, by omega, hm, by omega⟩
    · rw [if_neg hm] at hl
      obtain ⟨g, h1, h2, h3⟩ := ih hl
      exact ⟨g, by omega, h2, h3⟩

theorem getD_marks (ids : List Nat) (n g : Nat) (hg : g < n) :
    (markFacet ids (List.replicate n 0)).getD g 0 = if g ∈ ids then 1 else 0 := by
  rw [getD_markFacet _ _ _ (by simpa using hg)]
  simp [List.getD_eq_getElem?_getD, List.getElem?_replicate, hg]

theorem marks_ne_zero_iff (ids : List Nat) (n g : Nat) (hg : g < n) :
    (markFacet ids (List.replicate n 0)).getD g 0 ≠ 0 ↔ g ∈ ids := by
  rw [getD_marks ids n g hg]
  by_cases h : g ∈ ids <;> simp [h]

/-! ### The inter-mesh loop -/

theorem pair_index_inj (t a b c d : Nat) (hb : b < t) (hd : d < t)
    (h : a * t + b = c * t + d) : a = c ∧ b = d := by
  have h1 : (a * t + b) / t = a := Nat.div_eq_of_lt_le (by omega) (by rw [Nat.add_mul]; omega)
  have h2 : (c * t + d) / t = c := Nat.div_eq_of_lt_le (by omega) (by rw [Nat.add_mul]; omega)
  have hac : a = c := by rw [← h1, ← h2, h]
  subst hac
  exact ⟨rfl, by omega⟩

theorem pair_index_lt (t a b : Nat) (ha : a < t) (hb : b < t) : a * t + b < t * t := by
  have : (a + 1) * t ≤ t * t := Nat.mul_le_mul_right t ha
  rw [Nat.add_mul] at this
  omega

theorem interMeshStep_length {V : Type} (m : GlobalMesh V) (total : Nat) (bi : IntVector)
    (fLoc : List IntVector) (imesh : List IntVector) (i : Nat) :
    (interMeshStep m total bi fLoc imesh i).length = imesh.length := by
  unfold interMeshStep
  by_cases h1 : m.gFNC.getD i 0 < m.gBCS
  · rw [if_pos h1]
    by_cases h2 : bi.getD (m.gFOC.getD i 0) 0 = bi.getD (m.gFNC.getD i 0) 0
    · simp only [h2, ne_eq, not_true_eq_false, if_false]
    · simp only [h2, ne_eq, not_false_eq_true, if_true, List.length_set]
  · rw [if_neg h1]

theorem getD_set_set {β : Type} (l : List β) (k1 k2 x : Nat) (a b d : β) :
    ((l.set k1 a).set k2 b).getD x d =
      if k2 = x ∧ k2 < l.length then b
      else if k1 = x ∧ k1 < l.length then a else l.getD x d := by
  rw [getD_set_eq, getD_set_eq, List.length_set]

theorem interMeshStep_getD {V : Type} (m : GlobalMesh V) (total : Nat) (bi : IntVector)
    (fLoc : List IntVector) (hbi : ∀ i, bi.getD i 0 < total) (A B : Nat) (hA : A < total)
    (hB : B < total) (hAB : A ≠ B) (imesh : List IntVector)
    (hlen : imesh.length = total * total) (i : Nat) :
    (interMeshStep m total bi fLoc imesh i).getD (A * total + B) [] =
      if decide (m.gFNC.getD i 0 < m.gBCS ∧
          ((bi.getD (m.gFOC.getD i 0) 0 = A ∧ bi.getD (m.gFNC.getD i 0) 0 = B) ∨
           (bi.getD (m.gFOC.getD i 0) 0 = B ∧ bi.getD (m.gFNC.getD i 0) 0 = A)))
      then imesh.getD (A * total + B) [] ++ [(fLoc.getD A []).getD i 0]
      else imesh.getD (A * total + B) [] := by
  unfold interMeshStep
  have hx := pair_index_lt total A B hA hB
  simp only [decide_eq_true_eq]
  by_cases h1 : m.gFNC.getD i 0 < m.gBCS
  · rw [if_pos h1]
    have hco_lt := hbi (m.gFOC.getD i 0)
    have hcn_lt := hbi (m.gFNC.getD i 0)
    generalize bi.getD (m.gFOC.getD i 0) 0 = co at hco_lt ⊢
    generalize bi.getD (m.gFNC.getD i 0) 0 = cn at hcn_lt ⊢
    by_cases h2 : co = cn
    · subst h2
      rw [if_neg (fun c => c rfl), if_neg]
      rintro ⟨_, (⟨rfl, h⟩ | ⟨rfl, h⟩)⟩
      · exact hAB h
      · exact hAB h.symm
    · rw [if_pos h2]
      show ((imesh.set (co * total + cn) _).set (cn * total + co) _).getD (A * total + B) [] = _
      rw [getD_set_set, hlen]
      by_cases hAB1 : co = A ∧ cn = B
      · obtain ⟨rfl, rfl⟩ := hAB1
        have hne : ¬ (cn * total + co = co * total + cn) := fun h =>
          h2 (pair_index_inj total cn co co cn hco_lt hcn_lt h).2
        rw [if_neg (fun h => hne h.1), if_pos ⟨rfl, hx⟩, if_pos ⟨h1, Or.inl ⟨rfl, rfl⟩⟩]
      · by_cases hAB2 : co = B ∧ cn = A
        · obtain ⟨rfl, rfl⟩ := hAB2
          have hne : ¬ (co * total + cn = cn * total + co) := fun h =>
            h2 (pair_index_inj total co cn cn co hcn_lt hco_lt h).1
          rw [if_pos ⟨rfl, hx⟩, if_pos ⟨h1, Or.inr ⟨rfl, rfl⟩⟩, getD_set_eq,
            if_neg (fun h => hne h.1)]
        · have hn1 : ¬ (cn * total + co = A * total + B) := fun h =>
            hAB2 (by have := pair_index_inj total cn co A B hco_lt hB h; exact ⟨this.2, this.1⟩)
          have hn2 : ¬ (co * total + cn = A * total + B) := fun h =>
            hAB1 (pair_index_inj total co cn A B hcn_lt hB h)
          rw [if_neg (fun h => hn1 h.1), if_neg (fun h => hn2 h.1), if_neg]
          rintro ⟨_, (h | h)⟩
          · exact hAB1 h
          · exact hAB2 h
  · rw [if_neg h1, if_neg (fun h => h1 h.1)]

theorem interMesh_getD {V : Type} (m : GlobalMesh V) (total : Nat) (bi : IntVector)
    (fLoc : List IntVector) (hbi : ∀ i, bi.getD i 0 < total) (A B : Nat) (hA : A < total)
    (hB : B < total) (hAB : A ≠ B) :
    (interMesh m total bi fLoc).getD (A * total + B) [] =
      (sharedFacets m bi A B).map (fun i => (fLoc.getD A []).getD i 0) := by
  unfold interMesh sharedFacets
  have := foldl_keyed (fun (s : List IntVector) => s.length = total * total)
    (fun s => s.getD (A * total + B) []) (interMeshStep m total bi fLoc)
    (fun i => decide (m.gFNC.getD i 0 < m.gBCS ∧
      ((bi.getD (m.gFOC.getD i 0) 0 = A ∧ bi.getD (m.gFNC.getD i 0) 0 = B) ∨
       (bi.getD (m.gFOC.getD i 0) 0 = B ∧ bi.getD (m.gFNC.getD i 0) 0 = A))))
    (fun i t => t ++ [(fLoc.getD A []).getD i 0])
    (fun s i hs => by beta_reduce; rw [interMeshStep_length]; exact hs)
    (fun s i hs => interMeshStep_getD m total bi fLoc hbi A B hA hB hAB s hs i)
    (List.range m.gFacets.length) (List.replicate (total * total) []) (by simp)
  have h2 := this.2
  beta_reduce at h2
  rw [h2]
  have hx := pair_index_lt total A B hA hB
  have h0 : (List.replicate (total * total) ([] : IntVector)).getD (A * total + B) [] = [] := by
    simp [List.getD_eq_getElem?_getD, List.getElem?_replicate, hx]
  rw [h0]
  generalize List.filter _ _ = l
  have : ∀ (acc : IntVector), l.foldl (fun t i => t ++ [(fLoc.getD A []).getD i 0]) acc =
      acc ++ l.map (fun i => (fLoc.getD A []).getD i 0) := by
    induction l with
    | nil => simp
    | cons a l ih => intro acc; rw [List.foldl_cons, ih]; simp
  rw [this]
  rfl

theorem sharedFacets_comm {V : Type} (m : GlobalMesh V) (bi : IntVector) (A B : Nat) :
    sharedFacets m bi A B = sharedFacets m bi B A := by
  unfold sharedFacets
  congr 1
  funext i
  congr 1
  apply propext
  constructor
  · rintro ⟨h, (h' | h')⟩
    · exact ⟨h, Or.inr h'⟩
    · exact ⟨h, Or.inl h'⟩
  · rintro ⟨h, (h' | h')⟩
    · exact ⟨h, Or.inr h'⟩
    · exact ⟨h, Or.inl h'⟩

/-! ## The state of one partition along `decomposeMesh` -/

theorem marked_part {V : Type} (m : GlobalMesh V) (total : Nat) (bi : IntVector) (p : Nat)
    (hp : p < total) :
    part (marked m total bi) p =
      (⟨[], [], (cellsOf bi m.gBCS p).map (fun i => m.gCells.getD i [])⟩,
       markFacet (usedVertices m bi p) (List.replicate m.gVertices.length 0),
       markFacet (usedFacets m bi p) (List.replicate m.gFacets.length 0),
       cellsOf bi m.gBCS p) :=
  addCells_init_part m bi total p hp

theorem marked_cLoc {V : Type} (m : GlobalMesh V) (total : Nat) (bi : IntVector) (p : Nat)
    (hp : p < total) : (marked m total bi).cLoc.getD p [] = cellsOf bi m.gBCS p := by
  have := marked_part m total bi p hp
  exact congrArg (fun t => t.2.2.2) this

theorem sliceMesh_cLoc {V : Type} [Inhabited V] (MAX_INT : Nat) (m : GlobalMesh V)
    (total : Nat) (bi : IntVector) (p : Nat) (hp : p < total) :
    (sliceMesh MAX_INT m total bi).cLoc.getD p [] = cellsOf bi m.gBCS p := by
  have h := sliceMesh_part MAX_INT m total bi p hp
  rw [compacted_part MAX_INT m total bi p hp, marked_part m total bi p hp] at h
  exact congrArg (fun t => t.2.2.2) h

theorem sliceMesh_sized {V : Type} [Inhabited V] (MAX_INT : Nat) (m : GlobalMesh V)
    (total : Nat) (bi : IntVector) : Sized (sliceMesh MAX_INT m total bi) total := by
  by_cases h : 0 < total
  · exact (adjustAll_part total 0 h _ (compacted_sized MAX_INT m total bi)).1
  · have h0 : total = 0 := by omega
    subst h0
    exact compacted_sized MAX_INT m 0 bi

theorem mem_cellsOf (bi : IntVector) (n p x : Nat) :
    x ∈ cellsOf bi n p ↔ x < n ∧ bi.getD x 0 = p := by
  unfold cellsOf
  rw [List.mem_filter, List.mem_range]
  simp

theorem getD_lt_of_all (bi : IntVector) (total : Nat) (hbi : ∀ b ∈ bi, b < total)
    (x : Nat) (hx : x < bi.length) : bi.getD x 0 < total := by
  rw [List.getD_eq_getElem _ _ hx]
  exact hbi _ (List.getElem_mem _)

theorem denseIds_compactLoop {α : Type} (MAX_INT : Nat) (d : α) (items : List α)
    (marks : IntVector) (hlen : marks.length = items.length)
    (hmax : items.length ≤ MAX_INT) :
    DenseIds MAX_INT items.length marks (compactLoop MAX_INT d items [] marks).2.1
      (compactLoop MAX_INT d items [] marks).1.length := by
  obtain ⟨h1, _, h3, _⟩ := compactLoop_spec MAX_INT d items [] marks hlen
  refine ⟨h3, ?_, ?_, ?_⟩
  · rw [h1]
    simp [length_markedIds]
  · intro l
    have hcount : (compactLoop MAX_INT d items [] marks).1.length = rank marks items.length := by
      rw [h1]; simp [length_markedIds]
    rw [hcount]
    constructor
    · rintro ⟨g, hg, hl, hne⟩
      rw [h3 g hg] at hl
      by_cases hm : marks.getD g 0 ≠ 0
      · rw [if_pos hm] at hl
        rw [← hl]
        exact rank_lt_of_marked marks hg hm
      · rw [if_neg hm] at hl
        exact absurd hl.symm hne
    · intro hl
      obtain ⟨g, hg, hm, hr⟩ := rank_surj marks items.length l hl
      refine ⟨g, hg, ?_, ?_⟩
      · rw [h3 g hg, if_pos hm, hr]
      · have := rank_le marks items.length
        omega
  · intro g g' hgg' hg' hm hm'
    rw [h3 g (by omega), h3 g' hg', if_pos hm, if_pos hm']
    exact rank_lt_of_marked marks hgg' hm

theorem length_marks (ids : List Nat) (n : Nat) :
    (markFacet ids (List.replicate n 0)).length = n := by
  rw [length_markFacet, List.length_replicate]

theorem marked_vLoc {V : Type} (m : GlobalMesh V) (total : Nat) (bi : IntVector) (p : Nat)
    (hp : p < total) :
    (marked m total bi).vLoc.getD p [] =
      markFacet (usedVertices m bi p) (List.replicate m.gVertices.length 0) :=
  congrArg (fun t => t.2.1) (marked_part m total bi p hp)

theorem marked_fLoc {V : Type} (m : GlobalMesh V) (total : Nat) (bi : IntVector) (p : Nat)
    (hp : p < total) :
    (marked m total bi).fLoc.getD p [] =
      markFacet (usedFacets m bi p) (List.replicate m.gFacets.length 0) :=
  congrArg (fun t => t.2.2.1) (marked_part m total bi p hp)

theorem marked_mesh {V : Type} (m : GlobalMesh V) (total : Nat) (bi : IntVector) (p : Nat)
    (hp : p < total) :
    (marked m total bi).meshes.getD p default =
      ⟨[], [], (cellsOf bi m.gBCS p).map (fun i => m.gCells.getD i [])⟩ :=
  congrArg (fun t => t.1) (marked_part m total bi p hp)

theorem compacted_vLoc {V : Type} [Inhabited V] (MAX_INT : Nat) (m : GlobalMesh V)
    (total : Nat) (bi : IntVector) (p : Nat) (hp : p < total) :
    (compacted MAX_INT m total bi).vLoc.getD p [] =
      (compactLoop MAX_INT default m.gVertices [] ((marked m total bi).vLoc.getD p [])).2.1 := by
  have h := congrArg (fun t => t.2.1) (compacted_part MAX_INT m total bi p hp)
  have hm := marked_mesh m total bi p hp
  simp only [compactPart, part] at h
  rw [hm] at h
  exact h

theorem compacted_fLoc {V : Type} [Inhabited V] (MAX_INT : Nat) (m : GlobalMesh V)
    (total : Nat) (bi : IntVector) (p : Nat) (hp : p < total) :
    (compacted MAX_INT m total bi).fLoc.getD p [] =
      (compactLoop MAX_INT [] m.gFacets [] ((marked m total bi).fLoc.getD p [])).2.1 := by
  have h := congrArg (fun t => t.2.2.1) (compacted_part MAX_INT m total bi p hp)
  have hm := marked_mesh m total bi p hp
  simp only [compactPart, part] at h
  rw [hm] at h
  exact h

theorem compacted_mesh {V : Type} [Inhabited V] (MAX_INT : Nat) (m : GlobalMesh V)
    (total : Nat) (bi : IntVector) (p : Nat) (hp : p < total) :
    (compacted MAX_INT m total bi).meshes.getD p default =
      ⟨(compactLoop MAX_INT default m.gVertices [] ((marked m total bi).vLoc.getD p [])).1,
       (compactLoop MAX_INT [] m.gFacets [] ((marked m total bi).fLoc.getD p [])).1,
       (cellsOf bi m.gBCS p).map (fun i => m.gCells.getD i [])⟩ := by
  have h := congrArg (fun t => t.1) (compacted_part MAX_INT m total bi p hp)
  have hm := marked_mesh m total bi p hp
  simp only [compactPart, part] at h
  rw [hm] at h
  exact h

theorem sliceMesh_vLoc {V : Type} [Inhabited V] (MAX_INT : Nat) (m : GlobalMesh V)
    (total : Nat) (bi : IntVector) (p : Nat) (hp : p < total) :
    (sliceMesh MAX_INT m total bi).vLoc.getD p [] =
      (compacted MAX_INT m total bi).vLoc.getD p [] :=
  congrArg (fun t => t.2.1) (sliceMesh_part MAX_INT m total bi p hp)

theorem sliceMesh_fLoc {V : Type} [Inhabited V] (MAX_INT : Nat) (m : GlobalMesh V)
    (total : Nat) (bi : IntVector) (p : Nat) (hp : p < total) :
    (sliceMesh MAX_INT m total bi).fLoc.getD p [] =
      (compacted MAX_INT m total bi).fLoc.getD p [] :=
  congrArg (fun t => t.2.2.1) (sliceMesh_part MAX_INT m total bi p hp)

theorem sliceMesh_mesh {V : Type} [Inhabited V] (MAX_INT : Nat) (m : GlobalMesh V)
    (total : Nat) (bi : IntVector) (p : Nat) (hp : p < total) :
    (sliceMesh MAX_INT m total bi).meshes.getD p default =
      ⟨(markedIds ((marked m total bi).vLoc.getD p []) m.gVertices.length).map
          (fun i => m.gVertices.getD i default),
       ((markedIds ((marked m total bi).fLoc.getD p []) m.gFacets.length).map
          (fun i => m.gFacets.getD i [])).map
          (fun f => f.map (fun v => ((compacted MAX_INT m total bi).vLoc.getD p []).getD v 0)),
       ((cellsOf bi m.gBCS p).map (fun i => m.gCells.getD i [])).map
          (fun c => c.map (fun f => ((compacted MAX_INT m total bi).fLoc.getD p []).getD f 0))⟩ := by
  have h := congrArg (fun t => t.1) (sliceMesh_part MAX_INT m total bi p hp)
  have hm := compacted_mesh MAX_INT m total bi p hp
  simp only [adjustPart, part] at h
  rw [hm] at h
  rw [h]
  have h1 := (compactLoop_spec MAX_INT default m.gVertices []
    ((marked m total bi).vLoc.getD p [])
    (by rw [marked_vLoc m total bi p hp, length_marks])).1
  have h2 := (compactLoop_spec MAX_INT [] m.gFacets []
    ((marked m total bi).fLoc.getD p [])
    (by rw [marked_fLoc m total bi p hp, length_marks])).1
  rw [h1, h2]
  simp

theorem mem_markedIds (loc : IntVector) (n g : Nat) :
    g ∈ markedIds loc n ↔ g < n ∧ loc.getD g 0 ≠ 0 := by
  unfold markedIds
  rw [List.mem_filter, List.mem_range]
  simp

theorem usedVertices_of_usedFacets {V : Type} (m : GlobalMesh V) (bi : IntVector) (p g w : Nat)
    (hg : g ∈ usedFacets m bi p) (hw : w ∈ m.gFacets.getD g []) : w ∈ usedVertices m bi p := by
  unfold usedFacets at hg
  unfold usedVertices
  rw [List.mem_flatMap] at hg ⊢
  obtain ⟨i, hi, hgi⟩ := hg
  exact ⟨i, hi, List.mem_flatMap.mpr ⟨g, hgi, hw⟩⟩

theorem getD_lt_total (bi : IntVector) (total : Nat) (hbi : ∀ b ∈ bi, b < total)
    (ht : 0 < total) (x : Nat) : bi.getD x 0 < total := by
  by_cases hx : x < bi.length
  · exact getD_lt_of_all bi total hbi x hx
  · rw [List.getD_eq_getElem?_getD, List.getElem?_eq_none (by omega)]
    exact ht

theorem mem_sharedFacets {V : Type} (m : GlobalMesh V) (bi : IntVector) (A B g : Nat) :
    g ∈ sharedFacets m bi A B ↔ g < m.gFacets.length ∧ m.gFNC.getD g 0 < m.gBCS ∧
      ((bi.getD (m.gFOC.getD g 0) 0 = A ∧ bi.getD (m.gFNC.getD g 0) 0 = B) ∨
       (bi.getD (m.gFOC.getD g 0) 0 = B ∧ bi.getD (m.gFNC.getD g 0) 0 = A)) := by
  unfold sharedFacets
  rw [List.mem_filter, List.mem_range]
  simp

theorem shared_used {V : Type} (m : GlobalMesh V) (bi : IntVector) (hwf : GhostWellFormed m)
    (A B g : Nat) (hg : g ∈ sharedFacets m bi A B) :
    g ∈ usedFacets m bi A ∧ g ∈ usedFacets m bi B := by
  obtain ⟨hgn, hfn, hside⟩ := (mem_sharedFacets m bi A B g).mp hg
  obtain ⟨hfo, ho, hn⟩ := hwf g hgn hfn
  unfold usedFacets
  rcases hside with ⟨h1, h2⟩ | ⟨h1, h2⟩
  · exact ⟨List.mem_flatMap.mpr ⟨_, (mem_cellsOf _ _ _ _).mpr ⟨hfo, h1⟩, ho⟩,
      List.mem_flatMap.mpr ⟨_, (mem_cellsOf _ _ _ _).mpr ⟨hfn, h2⟩, hn⟩⟩
  · exact ⟨List.mem_flatMap.mpr ⟨_, (mem_cellsOf _ _ _ _).mpr ⟨hfn, h2⟩, hn⟩,
      List.mem_flatMap.mpr ⟨_, (mem_cellsOf _ _ _ _).mpr ⟨hfo, h1⟩, ho⟩⟩

/-- The local facet id of a facet used by the partition determines the facet. -/
theorem fLoc_inj {V : Type} [Inhabited V] (MAX_INT : Nat) (m : GlobalMesh V) (total : Nat)
    (bi : IntVector) (p : Nat) (hp : p < total) (hF : m.gFacets.length ≤ MAX_INT)
    (g g' : Nat) (hg : g ∈ usedFacets m bi p) (hgn : g < m.gFacets.length)
    (hgn' : g' < m.gFacets.length)
    (h : ((sliceMesh MAX_INT m total bi).fLoc.getD p []).getD g' 0 =
      ((sliceMesh MAX_INT m total bi).fLoc.getD p []).getD g 0) :
    g' = g ∧ ((sliceMesh MAX_INT m total bi).fLoc.getD p []).getD g 0 ≠ MAX_INT := by
  have hmf := marked_fLoc m total bi p hp
  have hcf := compacted_fLoc MAX_INT m total bi p hp
  have hsf := (compactLoop_spec MAX_INT [] m.gFacets []
    ((marked m total bi).fLoc.getD p []) (by rw [hmf, length_marks])).2.2.1
  rw [← hcf, ← sliceMesh_fLoc MAX_INT m total bi p hp] at hsf
  have hm : ((marked m total bi).fLoc.getD p []).getD g 0 ≠ 0 := by
    rw [hmf, marks_ne_zero_iff _ _ _ hgn]; exact hg
  have hle := rank_le ((marked m total bi).fLoc.getD p []) g
  rw [hsf g hgn, if_pos hm] at h ⊢
  rw [hsf g' hgn'] at h
  by_cases hm' : ((marked m total bi).fLoc.getD p []).getD g' 0 ≠ 0
  · rw [if_pos hm'] at h
    refine ⟨?_, by omega⟩
    rcases Nat.lt_trichotomy g' g with hlt | heq | hgt
    · have := rank_lt_of_marked _ hlt hm'
      omega
    · exact heq
    · have := rank_lt_of_marked _ hgt hm
      omega
  · rw [if_neg hm'] at h
    omega

theorem getD_expandSpec (block : Nat) (L : IntVector) (i : Nat) (hi : i < L.length * block) :
    (expandSpec block L).getD i 0 = L.getD (i / block) 0 * block + i % block := by
  unfold expandSpec
  rw [List.getD_eq_getElem?_getD, List.getElem?_map, List.getElem?_range hi]
  rfl

theorem length_expandSpec (block : Nat) (L : IntVector) :
    (expandSpec block L).length = L.length * block := by
  unfold expandSpec
  rw [List.length_map, List.length_range]

theorem writePartitions_ret {V α : Type} [Inhabited α] (env : Env V α) (step total : Nat)
    (m : GlobalMesh V) (st : SliceState V) (imesh cLoc : List IntVector)
    (fields : List (List α)) (IDs : List Nat) (ev : List (Event V α)) :
    ((∀ ID ∈ IDs, env.cdOk ID = true) →
      (writePartitions env step total m st imesh cLoc fields IDs ev).1 = 0) ∧
    ((∃ ID ∈ IDs, env.cdOk ID = false) →
      (writePartitions env step total m st imesh cLoc fields IDs ev).1 = 1) := by
  induction IDs generalizing ev with
  | nil =>
    refine ⟨fun _ => rfl, ?_⟩
    rintro ⟨ID, hID, _⟩
    cases hID
  | cons a IDs ih =>
    unfold writePartitions
    by_cases ha : env.cdOk a = true
    · simp only [ha, if_true]
      refine ⟨fun h => (ih _).1 (fun ID hID => h ID (List.mem_cons_of_mem _ hID)), ?_⟩
      rintro ⟨ID, hID, hf⟩
      rcases List.mem_cons.mp hID with rfl | h
      · rw [ha] at hf; cases hf
      · exact (ih _).2 ⟨ID, h, hf⟩
    · simp only [ha, if_false]
      refine ⟨fun h => absurd (h a (List.mem_cons_self _ _)) ha, fun _ => rfl⟩

theorem covered_dof {V : Type} (m : GlobalMesh V) (total NP : Nat) (bi : IntVector)
    (hNP : 1 ≤ NP) (hlen : bi.length = m.gBCS) (hbi : ∀ b ∈ bi, b < total)
    (E : List IntVector)
    (hE : ∀ p, p < total → E.getD p [] = expandSpec NP (cellsOf bi m.gBCS p))
    (d : Nat) (hd : d < m.gBCS * NP) :
    ∃ ID ∈ List.range total, d ∈ E.getD ID [] := by
  have hc : d / NP < m.gBCS := (Nat.div_lt_iff_lt_mul (by omega)).mpr hd
  have hID := getD_lt_of_all bi total hbi (d / NP) (by omega)
  refine ⟨bi.getD (d / NP) 0, List.mem_range.mpr hID, ?_⟩
  rw [hE _ hID, mem_expandSpec NP hNP, mem_cellsOf]
  exact ⟨hc, rfl⟩

/-! ## C1: round trip -/

/-- C1 (round trip).  With `writeInternal` gathering the values of a field at
the indices of the expanded log and `readInternal` storing the `k`-th value
read at index `cLoc[ID][k]`: for every mesh, every `DG::NP` of at least 1,
every block assignment with one entry per interior cell and all entries below
`total`, all fields `F` and all target fields `G` (one per field name, each
covering the dofs below `gBCS * NP`), the expansion of the index logs of
`decomposeMesh` ends, and when the merge loop of `mergeFields` reads, for the
partitions `0 .. total-1`, the field files that `decomposeMesh` writes from
`F`, every field `i` that it leaves agrees with `F[i]` at every dof below
`gBCS * NP`. -/
theorem round_trip {V α : Type} [Inhabited V] [Inhabited α] (MAX_INT : Nat)
    (m : GlobalMesh V) (total NP : Nat) (blockIndex : IntVector) (F G : List (List α))
    (hNP : 1 ≤ NP) (hlen : blockIndex.length = m.gBCS) (hbi : ∀ b ∈ blockIndex, b < total)
    (hFG : G.length = F.length) (hF : ∀ fld ∈ F, m.gBCS * NP ≤ fld.length)
    (hG : ∀ fld ∈ G, m.gBCS * NP ≤ fld.length) :
    ∃ cLoc, expandCLoc NP total (sliceMesh MAX_INT m total blockIndex).cLoc = some cLoc ∧
      ∀ i, i < F.length → ∀ d, d < m.gBCS * NP →
        ((mergeLoop total cLoc (fun ID j => (fieldFiles F cLoc ID)[j]?) G).1.getD i [])[d]? =
          (F.getD i [])[d]? := by
  obtain ⟨E, hE, _, hEp⟩ := expandCLoc_spec NP total hNP
    (sliceMesh MAX_INT m total blockIndex).cLoc (sliceMesh_sized MAX_INT m total blockIndex).2.2.2
  refine ⟨E, hE, ?_⟩
  intro i hi d hd
  have hEp' : ∀ p, p < total → E.getD p [] = expandSpec NP (cellsOf blockIndex m.gBCS p) := by
    intro p hp
    rw [hEp p hp, sliceMesh_cLoc MAX_INT m total blockIndex p hp]
  rw [mergeLoop_field total E _ G i (by omega)]
  have hfun : (fun (g : List α) ID =>
      match (fieldFiles F E ID)[i]? with
      | none => g
      | some values => readInternal g (E.getD ID []) values) =
      (fun g ID => readInternal g (E.getD ID []) (writeInternal (F.getD i []) (E.getD ID []))) := by
    funext g ID
    have : (fieldFiles F E ID)[i]? = some (writeInternal (F.getD i []) (E.getD ID [])) := by
      unfold fieldFiles
      rw [List.getElem?_map, List.getElem?_eq_getElem hi, List.getD_eq_getElem _ _ hi]
      rfl
    rw [this]
  rw [hfun, getElem?_scatter_all (F.getD i []) (fun ID => E.getD ID []) (List.range total),
    if_pos (covered_dof m total NP blockIndex hNP hlen hbi E hEp' d hd)]
  have hFi : m.gBCS * NP ≤ (F.getD i []).length := by
    apply hF
    rw [List.getD_eq_getElem _ _ hi]
    exact List.getElem_mem _
  have hGi : m.gBCS * NP ≤ (G.getD i []).length := by
    apply hG
    rw [List.getD_eq_getElem _ _ (by omega)]
    exact List.getElem_mem _
  rw [List.getElem?_eq_getElem (show d < (G.getD i []).length by omega),
    List.getElem?_eq_getElem (show d < (F.getD i []).length by omega),
    List.getD_eq_getElem _ _ (show d < (F.getD i []).length by omega)]
  rfl

/-- The statement of `round_trip` on the two-triangle mesh with `NP = 2`, the
assignment `[1, 0]`, one field with the dof values 50, 51, 90, 91 on the two
interior cells and a target field of zeros; the merged field is the original
one. -/
theorem round_trip_witness :
    expandCLoc 2 2 (sliceMesh 2147483647 twoCells 2 [1, 0]).cLoc = some [[2, 3], [0, 1]] ∧
    (mergeLoop 2 [[2, 3], [0, 1]]
        (fun ID j => (fieldFiles [[50, 51, 90, 91, 7, 7]] [[2, 3], [0, 1]] ID)[j]?)
        [[0, 0, 0, 0, 0, 0]]).1 = [[(50 : Int), 51, 90, 91, 0, 0]] ∧
    ∃ cLoc, expandCLoc 2 2 (sliceMesh 2147483647 twoCells 2 [1, 0]).cLoc = some cLoc ∧
      ∀ i, i < ([[50, 51, 90, 91, 7, 7]] : List (List Int)).length →
        ∀ d, d < twoCells.gBCS * 2 →
        ((mergeLoop 2 cLoc (fun ID j => (fieldFiles [[50, 51, 90, 91, 7, 7]] cLoc ID)[j]?)
          [[0, 0, 0, 0, 0, 0]]).1.getD i [])[d]? =
          (([[50, 51, 90, 91, 7, 7]] : List (List Int)).getD i [])[d]? :=
  ⟨by decide, by decide,
    round_trip 2147483647 twoCells 2 2 [1, 0] [[50, 51, 90, 91, 7, 7]] [[0, 0, 0, 0, 0, 0]]
      (by decide) (by decide) (by decide) (by decide) (by decide) (by decide)⟩

/-! ## C2: disjointness and cover -/

/-- C2 (disjointness and cover).  After the "add cells" loop of `decomposeMesh`,
for a block assignment with one entry per interior cell and all entries below
`total`: `cLoc` has `total` lists, two lists of different partitions share no
cell id, no list repeats an id, and a cell id occurs in some list exactly when
it is an interior cell id, that is when it is below `gBCS`. -/
theorem cLoc_disjoint_cover {V : Type} (m : GlobalMesh V) (total : Nat)
    (blockIndex : IntVector) (hlen : blockIndex.length = m.gBCS)
    (hbi : ∀ b ∈ blockIndex, b < total) :
    (addCells m blockIndex (initSlice m total)).cLoc.length = total ∧
    (∀ A B, A < total → B < total → A ≠ B →
      ∀ x, x ∈ (addCells m blockIndex (initSlice m total)).cLoc.getD A [] →
        x ∉ (addCells m blockIndex (initSlice m total)).cLoc.getD B []) ∧
    (∀ A, A < total → ((addCells m blockIndex (initSlice m total)).cLoc.getD A []).Nodup) ∧
    (∀ x, (∃ A, A < total ∧ x ∈ (addCells m blockIndex (initSlice m total)).cLoc.getD A []) ↔
      x < m.gBCS) := by
  refine ⟨(addCells_init_sized m blockIndex total).2.2.2, ?_, ?_, ?_⟩
  · intro A B hA hB hAB x hxA hxB
    have h1 := marked_cLoc m total blockIndex A hA
    have h2 := marked_cLoc m total blockIndex B hB
    unfold marked at h1 h2
    rw [h1, mem_cellsOf] at hxA
    rw [h2, mem_cellsOf] at hxB
    exact hAB (hxA.2.symm.trans hxB.2)
  · intro A hA
    have h1 := marked_cLoc m total blockIndex A hA
    unfold marked at h1
    rw [h1]
    exact (List.nodup_range _).filter _
  · intro x
    constructor
    · rintro ⟨A, hA, hx⟩
      have h1 := marked_cLoc m total blockIndex A hA
      unfold marked at h1
      rw [h1, mem_cellsOf] at hx
      exact hx.1
    · intro hx
      have hlt := getD_lt_of_all blockIndex total hbi x (by omega)
      refine ⟨blockIndex.getD x 0, hlt, ?_⟩
      have h1 := marked_cLoc m total blockIndex _ hlt
      unfold marked at h1
      rw [h1, mem_cellsOf]
      exact ⟨hx, rfl⟩

/-- The statement of `cLoc_disjoint_cover` on the two-triangle mesh with the
assignment `[0, 1]`. -/
theorem cLoc_disjoint_cover_witness :
    (addCells twoCells [0, 1] (initSlice twoCells 2)).cLoc = [[0], [1]] ∧
    (addCells twoCells [0, 1] (initSlice twoCells 2)).cLoc.length = 2 ∧
    (∀ A B, A < 2 → B < 2 → A ≠ B →
      ∀ x, x ∈ (addCells twoCells [0, 1] (initSlice twoCells 2)).cLoc.getD A [] →
        x ∉ (addCells twoCells [0, 1] (initSlice twoCells 2)).cLoc.getD B []) ∧
    (∀ A, A < 2 → ((addCells twoCells [0, 1] (initSlice twoCells 2)).cLoc.getD A []).Nodup) ∧
    (∀ x, (∃ A, A < 2 ∧ x ∈ (addCells twoCells [0, 1] (initSlice twoCells 2)).cLoc.getD A []) ↔
      x < twoCells.gBCS) :=
  ⟨by decide, cLoc_disjoint_cover twoCells 2 [0, 1] (by decide) (by decide)⟩

/-! ## C3: the `CELLID` strategy -/

/-- C3 (partition totality of the `CELLID` strategy), evaluated on inputs where
it fails.  With `gBCS = 5` and `total = 2` the divisor is 2 and cell 4
receives the partition id 2, which is not below `total`; with `gBCS = 1` and
`total = 2` the divisor `gBCS / total` is zero and the division of the first
cell id is undefined.  When `total` divides `gBCS`, as for 4 cells and 2
partitions, every id is below `total`. -/
theorem decomposeIndex_out_of_range :
    decomposeIndex 5 2 (List.replicate 5 0) = some [0, 0, 1, 1, 2] ∧
    decomposeIndex 1 2 (List.replicate 1 0) = none ∧
    decomposeIndex 4 2 (List.replicate 4 0) = some [0, 0, 1, 1] := by
  decide

/-! ## C4: ghost symmetry -/

/-- C4 (ghost symmetry).  First part: for a mesh in which every facet with an
interior neighbour has an interior owner and occurs in both cells, a block
assignment with one entry per interior cell and all entries below `total`, a
sentinel that no global facet id reaches, and two different partitions `A`,
`B` below `total`: after the "inter mesh faces" loop `imesh[A*total+B]` and
`imesh[B*total+A]` have the same length, and at every position `k` neither
entry is `MAX_INT`, some global facet `g` has `fLoc[A][g]` equal to the entry
of the first list and `fLoc[B][g]` equal to the entry of the second, and any
two global facets `g`, `g'` with `fLoc[A][g]` the first entry and
`fLoc[B][g']` the second are one facet.  Second part: on the two-triangle
mesh with `total = 2` and the `CELLID` assignment `[0, 1]`, `imesh` is
`[[], [2], [0], []]`: `interMesh_0_1` holds the one local id 2 and
`interMesh_1_0` the one local id 0, and both are the local ids of the shared
global facet 2. -/
theorem ghost_symmetry :
    (∀ {V : Type} [Inhabited V] (MAX_INT : Nat) (m : GlobalMesh V) (total : Nat)
      (blockIndex : IntVector) (A B : Nat),
      GhostWellFormed m → blockIndex.length = m.gBCS → (∀ b ∈ blockIndex, b < total) →
      m.gFacets.length ≤ MAX_INT → A < total → B < total → A ≠ B →
      ((interMesh m total blockIndex (sliceMesh MAX_INT m total blockIndex).fLoc).getD
          (A * total + B) []).length =
        ((interMesh m total blockIndex (sliceMesh MAX_INT m total blockIndex).fLoc).getD
          (B * total + A) []).length ∧
      ∀ k, k < ((interMesh m total blockIndex (sliceMesh MAX_INT m total blockIndex).fLoc).getD
          (A * total + B) []).length →
        ((interMesh m total blockIndex (sliceMesh MAX_INT m total blockIndex).fLoc).getD
          (A * total + B) []).getD k 0 ≠ MAX_INT ∧
        ((interMesh m total blockIndex (sliceMesh MAX_INT m total blockIndex).fLoc).getD
          (B * total + A) []).getD k 0 ≠ MAX_INT ∧
        (∃ g, g < m.gFacets.length ∧
          ((sliceMesh MAX_INT m total blockIndex).fLoc.getD A []).getD g 0 =
            ((interMesh m total blockIndex (sliceMesh MAX_INT m total blockIndex).fLoc).getD
              (A * total + B) []).getD k 0 ∧
          ((sliceMesh MAX_INT m total blockIndex).fLoc.getD B []).getD g 0 =
            ((interMesh m total blockIndex (sliceMesh MAX_INT m total blockIndex).fLoc).getD
              (B * total + A) []).getD k 0) ∧
        (∀ g g', g < m.gFacets.length → g' < m.gFacets.length →
          ((sliceMesh MAX_INT m total blockIndex).fLoc.getD A []).getD g 0 =
            ((interMesh m total blockIndex (sliceMesh MAX_INT m total blockIndex).fLoc).getD
              (A * total + B) []).getD k 0 →
          ((sliceMesh MAX_INT m total blockIndex).fLoc.getD B []).getD g' 0 =
            ((interMesh m total blockIndex (sliceMesh MAX_INT m total blockIndex).fLoc).getD
              (B * total + A) []).getD k 0 →
          g = g')) ∧
    (decomposeIndex twoCells.gBCS 2 (List.replicate twoCells.gBCS 0) = some [0, 1] ∧
      interMesh twoCells 2 [0, 1] (sliceMesh 2147483647 twoCells 2 [0, 1]).fLoc =
        [[], [2], [0], []] ∧
      ((sliceMesh 2147483647 twoCells 2 [0, 1]).fLoc.getD 0 []).getD 2 0 = 2 ∧
      ((sliceMesh 2147483647 twoCells 2 [0, 1]).fLoc.getD 1 []).getD 2 0 = 0 ∧
      twoCells.gFOC.getD 2 0 = 0 ∧ twoCells.gFNC.getD 2 0 = 1) := by
  refine ⟨?_, by decide⟩
  intro V _ MAX_INT m total bi A B hwf hlen hbi hF hA hB hAB
  have hbi' := getD_lt_total bi total hbi (by omega)
  rw [interMesh_getD m total bi _ hbi' A B hA hB hAB,
    interMesh_getD m total bi _ hbi' B A hB hA (fun h => hAB h.symm),
    sharedFacets_comm m bi B A]
  refine ⟨by simp, ?_⟩
  intro k hk
  rw [List.length_map] at hk
  have hgk : (sharedFacets m bi A B)[k] ∈ sharedFacets m bi A B := List.getElem_mem _
  generalize hgdef : (sharedFacets m bi A B)[k] = g at hgk
  have hkA : ((sharedFacets m bi A B).map
      (fun i => ((sliceMesh MAX_INT m total bi).fLoc.getD A []).getD i 0)).getD k 0 =
      ((sliceMesh MAX_INT m total bi).fLoc.getD A []).getD g 0 := by
    rw [List.getD_eq_getElem?_getD, List.getElem?_map, List.getElem?_eq_getElem hk, hgdef]
    rfl
  have hkB : ((sharedFacets m bi A B).map
      (fun i => ((sliceMesh MAX_INT m total bi).fLoc.getD B []).getD i 0)).getD k 0 =
      ((sliceMesh MAX_INT m total bi).fLoc.getD B []).getD g 0 := by
    rw [List.getD_eq_getElem?_getD, List.getElem?_map, List.getElem?_eq_getElem hk, hgdef]
    rfl
  rw [hkA, hkB]
  have hgn := ((mem_sharedFacets m bi A B g).mp hgk).1
  obtain ⟨huA, huB⟩ := shared_used m bi hwf A B g hgk
  have hiA := fLoc_inj MAX_INT m total bi A hA hF g g huA hgn hgn rfl
  have hiB := fLoc_inj MAX_INT m total bi B hB hF g g huB hgn hgn rfl
  refine ⟨hiA.2, hiB.2, ⟨g, hgn, rfl, rfl⟩, ?_⟩
  intro g1 g2 h1 h2 e1 e2
  have := (fLoc_inj MAX_INT m total bi A hA hF g g1 huA hgn h1 e1).1
  have := (fLoc_inj MAX_INT m total bi B hB hF g g2 huB hgn h2 e2).1
  omega

/-- The first part of `ghost_symmetry` on the two-triangle mesh with the
`CELLID` assignment `[0, 1]`, `A = 0` and `B = 1`. -/
theorem ghost_symmetry_witness :
    GhostWellFormed twoCells ∧
    ((interMesh twoCells 2 [0, 1] (sliceMesh 2147483647 twoCells 2 [0, 1]).fLoc).getD
        (0 * 2 + 1) []).length =
      ((interMesh twoCells 2 [0, 1] (sliceMesh 2147483647 twoCells 2 [0, 1]).fLoc).getD
        (1 * 2 + 0) []).length ∧
    ∀ k, k < ((interMesh twoCells 2 [0, 1] (sliceMesh 2147483647 twoCells 2 [0, 1]).fLoc).getD
        (0 * 2 + 1) []).length →
      ((interMesh twoCells 2 [0, 1] (sliceMesh 2147483647 twoCells 2 [0, 1]).fLoc).getD
        (0 * 2 + 1) []).getD k 0 ≠ 2147483647 ∧
      ((interMesh twoCells 2 [0, 1] (sliceMesh 2147483647 twoCells 2 [0, 1]).fLoc).getD
        (1 * 2 + 0) []).getD k 0 ≠ 2147483647 ∧
      (∃ g, g < twoCells.gFacets.length ∧
        ((sliceMesh 2147483647 twoCells 2 [0, 1]).fLoc.getD 0 []).getD g 0 =
          ((interMesh twoCells 2 [0, 1] (sliceMesh 2147483647 twoCells 2 [0, 1]).fLoc).getD
            (0 * 2 + 1) []).getD k 0 ∧
        ((sliceMesh 2147483647 twoCells 2 [0, 1]).fLoc.getD 1 []).getD g 0 =
          ((interMesh twoCells 2 [0, 1] (sliceMesh 2147483647 twoCells 2 [0, 1]).fLoc).getD
            (1 * 2 + 0) []).getD k 0) ∧
      (∀ g g', g < twoCells.gFacets.length → g' < twoCells.gFacets.length →
        ((sliceMesh 2147483647 twoCells 2 [0, 1]).fLoc.getD 0 []).getD g 0 =
          ((interMesh twoCells 2 [0, 1] (sliceMesh 2147483647 twoCells 2 [0, 1]).fLoc).getD
            (0 * 2 + 1) []).getD k 0 →
        ((sliceMesh 2147483647 twoCells 2 [0, 1]).fLoc.getD 1 []).getD g' 0 =
          ((interMesh twoCells 2 [0, 1] (sliceMesh 2147483647 twoCells 2 [0, 1]).fLoc).getD
            (1 * 2 + 0) []).getD k 0 →
        g = g') :=
  ⟨by decide,
    ghost_symmetry.1 2147483647 twoCells 2 [0, 1] 0 1 (by decide) (by decide) (by decide)
      (by decide) (by decide) (by decide) (by decide)⟩

/-! ## C5: local id density -/

/-- C5 (local id density and order).  After the compaction loop of
`decomposeMesh`, for every partition `ID` below `total` and a sentinel that no
global vertex or facet id reaches: a global vertex id that the "add cells" loop
marked for `ID` has as `vLoc[ID][g]` the number of marked ids below `g`, any
other id has `MAX_INT`; the local ids that are not the sentinel are exactly
the numbers below the length of `mVertices`, which is the number of marked
ids; and `vLoc[ID]` grows strictly on marked ids.  The same holds for
`fLoc[ID]` and `mFacets`. -/
theorem local_ids_dense {V : Type} [Inhabited V] (MAX_INT : Nat) (m : GlobalMesh V)
    (total : Nat) (blockIndex : IntVector) (ID : Nat) (hID : ID < total)
    (hV : m.gVertices.length ≤ MAX_INT) (hF : m.gFacets.length ≤ MAX_INT) :
    DenseIds MAX_INT m.gVertices.length
      ((addCells m blockIndex (initSlice m total)).vLoc.getD ID [])
      ((compactAll MAX_INT m total (addCells m blockIndex (initSlice m total))).vLoc.getD ID [])
      ((compactAll MAX_INT m total
        (addCells m blockIndex (initSlice m total))).meshes.getD ID default).mVertices.length ∧
    DenseIds MAX_INT m.gFacets.length
      ((addCells m blockIndex (initSlice m total)).fLoc.getD ID [])
      ((compactAll MAX_INT m total (addCells m blockIndex (initSlice m total))).fLoc.getD ID [])
      ((compactAll MAX_INT m total
        (addCells m blockIndex (initSlice m total))).meshes.getD ID default).mFacets.length := by
  have hv := compacted_vLoc MAX_INT m total blockIndex ID hID
  have hf := compacted_fLoc MAX_INT m total blockIndex ID hID
  have hm := compacted_mesh MAX_INT m total blockIndex ID hID
  have hmv := marked_vLoc m total blockIndex ID hID
  have hmf := marked_fLoc m total blockIndex ID hID
  unfold compacted marked at hv hf hm
  unfold marked at hmv hmf
  rw [hv, hf, hm]
  constructor
  · apply denseIds_compactLoop MAX_INT default m.gVertices _ _ hV
    rw [hmv, length_marks]
  · apply denseIds_compactLoop MAX_INT [] m.gFacets _ _ hF
    rw [hmf, length_marks]

/-- The statement of `local_ids_dense` for partition 1 of the two-triangle
mesh, with its local ids. -/
theorem local_ids_dense_witness :
    (compactAll 2147483647 twoCells 2 (addCells twoCells [0, 1] (initSlice twoCells 2))).vLoc
      = [[0, 1, 2, 2147483647], [0, 2147483647, 1, 2]] ∧
    (compactAll 2147483647 twoCells 2 (addCells twoCells [0, 1] (initSlice twoCells 2))).fLoc
      = [[0, 1, 2, 2147483647, 2147483647], [2147483647, 2147483647, 0, 1, 2]] ∧
    DenseIds 2147483647 twoCells.gVertices.length
      ((addCells twoCells [0, 1] (initSlice twoCells 2)).vLoc.getD 1 [])
      ((compactAll 2147483647 twoCells 2
        (addCells twoCells [0, 1] (initSlice twoCells 2))).vLoc.getD 1 [])
      ((compactAll 2147483647 twoCells 2
        (addCells twoCells [0, 1] (initSlice twoCells 2))).meshes.getD 1 default).mVertices.length ∧
    DenseIds 2147483647 twoCells.gFacets.length
      ((addCells twoCells [0, 1] (initSlice twoCells 2)).fLoc.getD 1 [])
      ((compactAll 2147483647 twoCells 2
        (addCells twoCells [0, 1] (initSlice twoCells 2))).fLoc.getD 1 [])
      ((compactAll 2147483647 twoCells 2
        (addCells twoCells [0, 1] (initSlice twoCells 2))).meshes.getD 1 default).mFacets.length :=
  ⟨by decide, by decide,
    local_ids_dense 2147483647 twoCells 2 [0, 1] 1 (by decide) (by decide) (by decide)⟩

/-! ## C6: no sentinel leak -/

/-- C6 (no sentinel leak).  For a mesh whose interior cells reference only
existing facet ids and whose facets reference only existing vertex ids, a
sentinel that no global vertex or facet id reaches, and every partition `ID`
below `total`: after the "adjust IDs" loop every entry of a facet of
`meshes[ID].mFacets` differs from `MAX_INT` and is below the number of local
vertices, and every entry of a cell of `meshes[ID].mCells` differs from
`MAX_INT` and is below the number of local facets. -/
theorem no_sentinel_leak {V : Type} [Inhabited V] (MAX_INT : Nat) (m : GlobalMesh V)
    (total : Nat) (blockIndex : IntVector) (ID : Nat) (hID : ID < total)
    (href : ReferencesExist m)
    (hV : m.gVertices.length ≤ MAX_INT) (hF : m.gFacets.length ≤ MAX_INT) :
    (∀ f ∈ ((sliceMesh MAX_INT m total blockIndex).meshes.getD ID default).mFacets,
      ∀ v ∈ f, v ≠ MAX_INT ∧
        v < ((sliceMesh MAX_INT m total blockIndex).meshes.getD ID default).mVertices.length) ∧
    (∀ c ∈ ((sliceMesh MAX_INT m total blockIndex).meshes.getD ID default).mCells,
      ∀ f ∈ c, f ≠ MAX_INT ∧
        f < ((sliceMesh MAX_INT m total blockIndex).meshes.getD ID default).mFacets.length) := by
  rw [sliceMesh_mesh MAX_INT m total blockIndex ID hID]
  have hmv := marked_vLoc m total blockIndex ID hID
  have hmf := marked_fLoc m total blockIndex ID hID
  have hcv := compacted_vLoc MAX_INT m total blockIndex ID hID
  have hcf := compacted_fLoc MAX_INT m total blockIndex ID hID
  have hsv := (compactLoop_spec MAX_INT default m.gVertices []
    ((marked m total blockIndex).vLoc.getD ID []) (by rw [hmv, length_marks])).2.2.1
  have hsf := (compactLoop_spec MAX_INT [] m.gFacets []
    ((marked m total blockIndex).fLoc.getD ID []) (by rw [hmf, length_marks])).2.2.1
  rw [← hcv] at hsv
  rw [← hcf] at hsf
  simp only [List.length_map, length_markedIds]
  constructor
  · intro f hf v hv
    obtain ⟨f0, hf0, rfl⟩ := List.mem_map.mp hf
    obtain ⟨g, hg, rfl⟩ := List.mem_map.mp hf0
    obtain ⟨w, hw, rfl⟩ := List.mem_map.mp hv
    obtain ⟨hgn, hgm⟩ := (mem_markedIds _ _ _).mp hg
    rw [hmf, marks_ne_zero_iff _ _ _ hgn] at hgm
    have hwn : w < m.gVertices.length := by
      apply href.2 (m.gFacets.getD g []) _ w hw
      rw [List.getD_eq_getElem _ _ hgn]
      exact List.getElem_mem _
    have hwm : ((marked m total blockIndex).vLoc.getD ID []).getD w 0 ≠ 0 := by
      rw [hmv, marks_ne_zero_iff _ _ _ hwn]
      exact usedVertices_of_usedFacets m blockIndex ID g w hgm hw
    rw [hsv w hwn, if_pos hwm]
    have h1 := rank_lt_of_marked _ hwn hwm
    have h2 := rank_le ((marked m total blockIndex).vLoc.getD ID []) w
    exact ⟨by omega, h1⟩
  · intro c hc f hf
    obtain ⟨c0, hc0, rfl⟩ := List.mem_map.mp hc
    obtain ⟨i, hi, rfl⟩ := List.mem_map.mp hc0
    obtain ⟨g, hg, rfl⟩ := List.mem_map.mp hf
    have hi' := (mem_cellsOf _ _ _ _).mp hi
    have hgn : g < m.gFacets.length := href.1 i hi'.1 g hg
    have hgm : ((marked m total blockIndex).fLoc.getD ID []).getD g 0 ≠ 0 := by
      rw [hmf, marks_ne_zero_iff _ _ _ hgn]
      exact List.mem_flatMap.mpr ⟨i, hi, hg⟩
    rw [hsf g hgn, if_pos hgm]
    have h1 := rank_lt_of_marked _ hgn hgm
    have h2 := rank_le ((marked m total blockIndex).fLoc.getD ID []) g
    exact ⟨by omega, h1⟩

/-- The statement of `no_sentinel_leak` for partition 0 of the two-triangle
mesh, with the local meshes of both partitions. -/
theorem no_sentinel_leak_witness :
    (sliceMesh 2147483647 twoCells 2 [0, 1]).meshes =
      [⟨[(0, 0), (1, 0), (1, 1)], [[0, 1], [1, 2], [2, 0]], [[0, 1, 2]]⟩,
       ⟨[(0, 0), (1, 1), (0, 1)], [[1, 0], [1, 2], [2, 0]], [[0, 1, 2]]⟩] ∧
    (∀ f ∈ ((sliceMesh 2147483647 twoCells 2 [0, 1]).meshes.getD 0 default).mFacets,
      ∀ v ∈ f, v ≠ 2147483647 ∧
        v < ((sliceMesh 2147483647 twoCells 2 [0, 1]).meshes.getD 0 default).mVertices.length) ∧
    (∀ c ∈ ((sliceMesh 2147483647 twoCells 2 [0, 1]).meshes.getD 0 default).mCells,
      ∀ f ∈ c, f ≠ 2147483647 ∧
        f < ((sliceMesh 2147483647 twoCells 2 [0, 1]).meshes.getD 0 default).mFacets.length) :=
  ⟨by decide,
    no_sentinel_leak 2147483647 twoCells 2 [0, 1] 0 (by decide) (by decide) (by decide)
      (by decide)⟩

/-! ## C7: index-log alignment -/

/-- C7 (index-log alignment).  Before the expansion of `cLoc`, for every
partition `ID` below `total`: `cLoc[ID]` and `meshes[ID].mCells` have the same
length, `cLoc[ID]` is strictly increasing, the local cell at position `k` is
the facet list of the global cell `cLoc[ID][k]` with every entry `f` replaced
by `fLoc[ID][f]`, and for every global facet `g` that the "add cells" loop
marked for `ID` the local facet at position `fLoc[ID][g]` is the vertex list
of `gFacets[g]` with every entry `v` replaced by `vLoc[ID][v]`. -/
theorem index_log_alignment {V : Type} [Inhabited V] (MAX_INT : Nat) (m : GlobalMesh V)
    (total : Nat) (blockIndex : IntVector) (ID : Nat) (hID : ID < total) :
    ((sliceMesh MAX_INT m total blockIndex).cLoc.getD ID []).length =
      ((sliceMesh MAX_INT m total blockIndex).meshes.getD ID default).mCells.length ∧
    ((sliceMesh MAX_INT m total blockIndex).cLoc.getD ID []).Pairwise (fun a b => a < b) ∧
    (∀ k, k < ((sliceMesh MAX_INT m total blockIndex).cLoc.getD ID []).length →
      ((sliceMesh MAX_INT m total blockIndex).meshes.getD ID default).mCells.getD k [] =
        (m.gCells.getD (((sliceMesh MAX_INT m total blockIndex).cLoc.getD ID []).getD k 0) []).map
          (fun f => ((sliceMesh MAX_INT m total blockIndex).fLoc.getD ID []).getD f 0)) ∧
    (∀ g, g < m.gFacets.length →
      ((addCells m blockIndex (initSlice m total)).fLoc.getD ID []).getD g 0 ≠ 0 →
      ((sliceMesh MAX_INT m total blockIndex).meshes.getD ID default).mFacets.getD
          (((sliceMesh MAX_INT m total blockIndex).fLoc.getD ID []).getD g 0) [] =
        (m.gFacets.getD g []).map
          (fun v => ((sliceMesh MAX_INT m total blockIndex).vLoc.getD ID []).getD v 0)) := by
  rw [sliceMesh_mesh MAX_INT m total blockIndex ID hID,
    sliceMesh_cLoc MAX_INT m total blockIndex ID hID,
    sliceMesh_fLoc MAX_INT m total blockIndex ID hID,
    sliceMesh_vLoc MAX_INT m total blockIndex ID hID]
  refine ⟨by simp, ?_, ?_, ?_⟩
  · unfold cellsOf
    exact (List.pairwise_lt_range _).filter _
  · intro k hk
    simp only [List.getD_eq_getElem?_getD, List.getElem?_map, List.getElem?_eq_getElem hk,
      Option.map_some', Option.getD_some]
  · intro g hg hm
    have hmf := marked_fLoc m total blockIndex ID hID
    have hcf := compacted_fLoc MAX_INT m total blockIndex ID hID
    have hsf := (compactLoop_spec MAX_INT [] m.gFacets []
      ((marked m total blockIndex).fLoc.getD ID []) (by rw [hmf, length_marks])).2.2.1
    rw [← hcf] at hsf
    change ((marked m total blockIndex).fLoc.getD ID []).getD g 0 ≠ 0 at hm
    rw [hsf g hg, if_pos hm]
    have hr := markedIds_rank _ m.gFacets.length g hg hm
    rw [List.getD_eq_getElem?_getD, List.getElem?_map, List.getElem?_map, hr]
    rfl

/-- The statement of `index_log_alignment` for partition 1 of the two-triangle
mesh. -/
theorem index_log_alignment_witness :
    ((sliceMesh 2147483647 twoCells 2 [0, 1]).cLoc.getD 1 []).length =
      ((sliceMesh 2147483647 twoCells 2 [0, 1]).meshes.getD 1 default).mCells.length ∧
    ((sliceMesh 2147483647 twoCells 2 [0, 1]).cLoc.getD 1 []).Pairwise (fun a b => a < b) ∧
    (∀ k, k < ((sliceMesh 2147483647 twoCells 2 [0, 1]).cLoc.getD 1 []).length →
      ((sliceMesh 2147483647 twoCells 2 [0, 1]).meshes.getD 1 default).mCells.getD k [] =
        (twoCells.gCells.getD (((sliceMesh 2147483647 twoCells 2 [0, 1]).cLoc.getD 1 []).getD k 0)
          []).map
          (fun f => ((sliceMesh 2147483647 twoCells 2 [0, 1]).fLoc.getD 1 []).getD f 0)) ∧
    (∀ g, g < twoCells.gFacets.length →
      ((addCells twoCells [0, 1] (initSlice twoCells 2)).fLoc.getD 1 []).getD g 0 ≠ 0 →
      ((sliceMesh 2147483647 twoCells 2 [0, 1]).meshes.getD 1 default).mFacets.getD
          (((sliceMesh 2147483647 twoCells 2 [0, 1]).fLoc.getD 1 []).getD g 0) [] =
        (twoCells.gFacets.getD g []).map
          (fun v => ((sliceMesh 2147483647 twoCells 2 [0, 1]).vLoc.getD 1 []).getD v 0)) :=
  index_log_alignment 2147483647 twoCells 2 [0, 1] 1 (by decide)

/-! ## C8: expansion rule -/

/-- C8 as stated fails on its own example: for `block = 4` and the index log
`[10]` the "Expand cLoc" loop yields `[40, 41, 42, 43]`, not
`[43, 42, 41, 40]`, and the entries do not follow
`L[i / block] * block + block - 1 - (i % block)`. -/
theorem expansion_not_reversed :
    expandCF 4 [10] = some [40, 41, 42, 43] ∧
    expandCF 4 [10] ≠ some [43, 42, 41, 40] ∧
    ¬ (∀ i, i < 4 → ([40, 41, 42, 43] : IntVector).getD i 0 =
        ([10] : IntVector).getD (i / 4) 0 * 4 + 4 - 1 - i % 4) := by
  decide

/-- C8, amended (expansion rule).  For every `block` of at least 1 and every
index log `L`, the body of the "Expand cLoc" loop ends and leaves a log `E` of
length `|L| * block` with `E[i] = L[i / block] * block + i % block` for every
`i` below that length: the sub-indices of a cell appear in increasing order.
For `block = 4` and `L = [10]`, `E = [40, 41, 42, 43]`. -/
theorem expansion_rule :
    (∀ (block : Nat) (L : IntVector), 1 ≤ block →
      ∃ E, expandCF block L = some E ∧ E.length = L.length * block ∧
        ∀ i, i < L.length * block → E.getD i 0 = L.getD (i / block) 0 * block + i % block) ∧
    expandCF 4 [10] = some [40, 41, 42, 43] := by
  refine ⟨?_, by decide⟩
  intro block L hb
  exact ⟨expandSpec block L, expandCF_spec block hb L, length_expandSpec block L,
    fun i hi => getD_expandSpec block L i hi⟩

/-- The first part of `expansion_rule` for `block = 2` and the log `[3, 0, 7]`. -/
theorem expansion_rule_witness :
    expandCF 2 [3, 0, 7] = some [6, 7, 0, 1, 14, 15] ∧
    ∃ E, expandCF 2 [3, 0, 7] = some E ∧ E.length = ([3, 0, 7] : IntVector).length * 2 ∧
      ∀ i, i < ([3, 0, 7] : IntVector).length * 2 →
        E.getD i 0 = ([3, 0, 7] : IntVector).getD (i / 2) 0 * 2 + i % 2 :=
  ⟨by decide, expansion_rule.1 2 [3, 0, 7] (by decide)⟩

/-! ## C9: the `NONE` strategy -/

/-- C9 (trivial strategy), evaluated on the code.  With `dp.type = 3` (`NONE`)
the block assignment that the "add cells" loop uses is whatever the call of
`decomposeMetis` at line 807 wrote into `blockIndex`; on the two-triangle mesh
with a partitioner that answers `[1, 0]` it is `[1, 0]` and not `[0, 0]`. -/
theorem none_strategy_uses_partitioner :
    (∀ {V : Type} (ext : Strategies) (n : IntVector) (m : GlobalMesh V) (total : Nat),
      chooseBlockIndex ext { n := n, type := 3 } m total =
        some (decomposeMetis ext.partGraph m total (List.replicate m.gBCS 0))) ∧
    chooseBlockIndex twoHosts.ext { n := [1, 1, 1], type := 3 } twoCells 2 = some [1, 0] ∧
    chooseBlockIndex twoHosts.ext { n := [1, 1, 1], type := 3 } twoCells 2 ≠ some [0, 0] := by
  refine ⟨?_, by decide, by decide⟩
  intro V ext n m total
  rfl

/-! ## C10: one host -/

/-- C10 as stated fails: on one host `decomposeMesh` returns 1 with no effect,
but the completed decomposition of the two-triangle mesh on two hosts
returns 0, and the run in which no partition directory can be entered
returns 1.  The value of the shortcut differs from the value of the
completed run and equals the value of the failed run. -/
theorem single_host_value_counterexample :
    decomposeMesh { twoHosts with n_hosts := 1 } 0 = some (1, []) ∧
    (decomposeMesh twoHosts 0).map Prod.fst = some 0 ∧
    (decomposeMesh { twoHosts with cdOk := fun _ => false } 0).map Prod.fst = some 1 ∧
    (decomposeMesh { twoHosts with n_hosts := 1 } 0).map Prod.fst ≠
      (decomposeMesh twoHosts 0).map Prod.fst ∧
    (decomposeMesh { twoHosts with n_hosts := 1 } 0).map Prod.fst =
      (decomposeMesh { twoHosts with cdOk := fun _ => false } 0).map Prod.fst := by
  decide

/-- C10, amended (degenerate shortcut).  When `MP::n_hosts` is 1,
`decomposeMesh` returns at once: nothing is printed, loaded, created, entered
or written, and the value is 1.  In every run on another number of hosts that
returns, the value is 0 when every partition directory can be entered and 1
when some partition directory cannot: the value of the shortcut is the value
of the failed run and differs from the value of the completed run. -/
theorem single_host_shortcut {V α : Type} [Inhabited V] [Inhabited α] (env : Env V α)
    (step : Nat) (h1 : env.n_hosts = 1) :
    decomposeMesh env step = some (1, []) ∧
    ∀ (env' : Env V α) (step' r : Nat) (ev : List (Event V α)),
      env'.n_hosts ≠ 1 → decomposeMesh env' step' = some (r, ev) →
        ((∀ ID, ID < env'.n_hosts → env'.cdOk ID = true) → r = 0 ∧ r ≠ 1) ∧
        ((∃ ID, ID < env'.n_hosts ∧ env'.cdOk ID = false) → r = 1) := by
  constructor
  · unfold decomposeMesh
    simp only [h1, if_true]
  · intro env' step' r ev hn hrun
    unfold decomposeMesh at hrun
    simp only [hn, if_false] at hrun
    cases hc : chooseBlockIndex env'.ext env'.dp (env'.loadMesh step') env'.n_hosts with
    | none => rw [hc] at hrun; cases hrun
    | some bi =>
      rw [hc] at hrun
      simp only [Option.bind] at hrun
      cases he : expandCLoc env'.NP env'.n_hosts
          (sliceMesh env'.MAX_INT (env'.loadMesh step') env'.n_hosts bi).cLoc with
      | none => rw [he] at hrun; cases hrun
      | some cLoc =>
        rw [he] at hrun
        simp only [Option.some.injEq] at hrun
        have hr := congrArg Prod.fst hrun
        simp only at hr
        have hw := writePartitions_ret env' step' env'.n_hosts (env'.loadMesh step')
          (sliceMesh env'.MAX_INT (env'.loadMesh step') env'.n_hosts bi)
          (interMesh (env'.loadMesh step') env'.n_hosts bi
            (sliceMesh env'.MAX_INT (env'.loadMesh step') env'.n_hosts bi).fLoc)
          cLoc (env'.readFields step') (List.range env'.n_hosts)
          [Event.message step', Event.cdWorkingDir, Event.loadMesh step',
            Event.createFields step', Event.readFields step']
        rw [hr] at hw
        constructor
        · intro hall
          have := hw.1 (fun ID hID => hall ID (List.mem_range.mp hID))
          exact ⟨this, by omega⟩
        · rintro ⟨ID, hID, hf⟩
          exact hw.2 ⟨ID, List.mem_range.mpr hID, hf⟩

/-- The statement of `single_host_shortcut` for the two-triangle environment
put on one host. -/
theorem single_host_shortcut_witness :
    ({ twoHosts with n_hosts := 1 } : Env (Int × Int) Int).n_hosts = 1 ∧
    decomposeMesh { twoHosts with n_hosts := 1 } 0 = some (1, []) ∧
    ∀ (env' : Env (Int × Int) Int) (step' r : Nat) (ev : List (Event (Int × Int) Int)),
      env'.n_hosts ≠ 1 → decomposeMesh env' step' = some (r, ev) →
        ((∀ ID, ID < env'.n_hosts → env'.cdOk ID = true) → r = 0 ∧ r ≠ 1) ∧
        ((∃ ID, ID < env'.n_hosts ∧ env'.cdOk ID = false) → r = 1) :=
  ⟨rfl, single_host_shortcut { twoHosts with n_hosts := 1 } 0 rfl⟩

/-! ## C11: merge without contributions -/

theorem mergeOne_count_le {α : Type} (cLoc : List IntVector)
    (file : Nat → Nat → Option (List α)) (ID : Nat) (l : List Nat) (s : List (List α) × Nat) :
    s.2 ≤ (l.foldl (mergeOne cLoc file ID) s).2 := by
  induction l generalizing s with
  | nil => exact Nat.le_refl _
  | cons a l ih =>
    rw [List.foldl_cons]
    refine Nat.le_trans ?_ (ih _)
    unfold mergeOne
    cases file ID a with
    | none => exact Nat.le_refl _
    | some v => exact Nat.le_succ _

theorem mergeOne_count_lt {α : Type} (cLoc : List IntVector)
    (file : Nat → Nat → Option (List α)) (ID : Nat) (l : List Nat) (s : List (List α) × Nat)
    (i : Nat) (hi : i ∈ l) (hfile : file ID i ≠ none) :
    s.2 < (l.foldl (mergeOne cLoc file ID) s).2 := by
  induction l generalizing s with
  | nil => cases hi
  | cons a l ih =>
    rw [List.foldl_cons]
    rcases List.mem_cons.mp hi with rfl | h
    · refine Nat.lt_of_lt_of_le ?_ (mergeOne_count_le cLoc file ID l _)
      unfold mergeOne
      cases hf : file ID i with
      | none => exact absurd hf hfile
      | some v => exact Nat.lt_succ_self _
    · refine Nat.lt_of_le_of_lt ?_ (ih _ h)
      exact mergeOne_count_le cLoc file ID [a] s

theorem mergeOne_none {α : Type} (cLoc : List IntVector)
    (file : Nat → Nat → Option (List α)) (ID : Nat) (l : List Nat) (s : List (List α) × Nat)
    (hfile : ∀ i ∈ l, file ID i = none) :
    l.foldl (mergeOne cLoc file ID) s = s := by
  induction l generalizing s with
  | nil => rfl
  | cons a l ih =>
    rw [List.foldl_cons]
    have : mergeOne cLoc file ID s a = s := by
      unfold mergeOne
      rw [hfile a (List.mem_cons_self _ _)]
    rw [this]
    exact ih s (fun i hi => hfile i (List.mem_cons_of_mem _ hi))

/-- Without any field file the merge loop leaves the fields as they are and
`count` at zero. -/
theorem mergeLoop_none {α : Type} (total : Nat) (cLoc : List IntVector)
    (file : Nat → Nat → Option (List α)) (fields : List (List α))
    (hfile : ∀ ID, ID < total → ∀ i, i < fields.length → file ID i = none) :
    mergeLoop total cLoc file fields = (fields, 0) := by
  unfold mergeLoop
  have : ∀ (l : List Nat) (s : List (List α) × Nat), (∀ ID ∈ l, ID < total) →
      l.foldl (fun s ID => (List.range fields.length).foldl (mergeOne cLoc file ID) s) s = s := by
    intro l
    induction l with
    | nil => intro s _; rfl
    | cons a l ih =>
      intro s hl
      rw [List.foldl_cons, mergeOne_none cLoc file a _ s
        (fun i hi => hfile a (hl a (List.mem_cons_self _ _)) i (List.mem_range.mp hi))]
      exact ih s (fun ID hID => hl ID (List.mem_cons_of_mem _ hID))
  exact this _ _ (fun ID hID => List.mem_range.mp hID)

/-- With at least one field file the merge loop ends with a `count` that is
not zero. -/
theorem mergeLoop_some {α : Type} (total : Nat) (cLoc : List IntVector)
    (file : Nat → Nat → Option (List α)) (fields : List (List α))
    (ID i : Nat) (hID : ID < total) (hi : i < fields.length) (hfile : file ID i ≠ none) :
    (mergeLoop total cLoc file fields).2 ≠ 0 := by
  unfold mergeLoop
  have hle : ∀ (l : List Nat) (s : List (List α) × Nat),
      s.2 ≤ (l.foldl (fun s ID =>
        (List.range fields.length).foldl (mergeOne cLoc file ID) s) s).2 := by
    intro l
    induction l with
    | nil => intro s; exact Nat.le_refl _
    | cons a l ih =>
      intro s
      rw [List.foldl_cons]
      exact Nat.le_trans (mergeOne_count_le cLoc file a _ s) (ih _)
  have hlt : ∀ (l : List Nat) (s : List (List α) × Nat), ID ∈ l →
      s.2 < (l.foldl (fun s ID =>
        (List.range fields.length).foldl (mergeOne cLoc file ID) s) s).2 := by
    intro l
    induction l with
    | nil => intro s h; cases h
    | cons a l ih =>
      intro s h
      rw [List.foldl_cons]
      rcases List.mem_cons.mp h with rfl | h'
      · exact Nat.lt_of_lt_of_le
          (mergeOne_count_lt cLoc file ID _ s i (List.mem_range.mpr hi) hfile) (hle l _)
      · exact Nat.lt_of_le_of_lt (mergeOne_count_le cLoc file a _ s) (ih _ h')
  have := hlt (List.range total) (fields, 0) (List.mem_range.mpr hID)
  omega

/-- C11 as stated fails: at step 3 the run over two partition directories
without field files and the run over two directories with field files both
return 0; the first one does not call `write_fields`, the second one commits
the merged field `[50, 90, 0, 0, 0, 0]`. -/
theorem merge_noop_counterexample :
    (mergeFields twoHosts 3).1 = 0 ∧ (mergeFields twoHostsMerged 3).1 = 0 ∧
    (mergeFields twoHosts 3).1 = (mergeFields twoHostsMerged 3).1 ∧
    Event.writeFields 3 [[50, 90, 0, 0, 0, 0]] ∉ (mergeFields twoHosts 3).2 ∧
    Event.writeFields 3 [[50, 90, 0, 0, 0, 0]] ∈ (mergeFields twoHostsMerged 3).2 := by
  decide

/-- C11, amended (merge without contributions).  For every step and every
state of the files: `mergeFields` returns 0; when no partition directory holds
a field file of the requested step it does not call `write_fields`; when some
partition directory holds one it calls `write_fields` for the requested step.
The value returned is the same in both cases: the two cases differ in the
call of `write_fields` only. -/
theorem merge_noop_not_reported {V α : Type} (env : Env V α) (step : Nat) :
    (mergeFields env step).1 = 0 ∧
    ((∀ ID, ID < env.n_hosts →
        ∀ i, i < (env.readFields (findLastRefinedGrid env.meshExists step)).length →
          env.fieldFile ID i step = none) →
      ∀ s f, Event.writeFields s f ∉ (mergeFields env step).2) ∧
    ((∃ ID, ID < env.n_hosts ∧
        ∃ i, i < (env.readFields (findLastRefinedGrid env.meshExists step)).length ∧
          env.fieldFile ID i step ≠ none) →
      ∃ f, Event.writeFields step f ∈ (mergeFields env step).2) := by
  refine ⟨rfl, ?_, ?_⟩
  · intro hnone s f
    unfold mergeFields
    simp only [mergeLoop_none env.n_hosts _ (fun ID i => env.fieldFile ID i step) _ hnone]
    simp
  · rintro ⟨ID, hID, i, hi, hfile⟩
    have hc := mergeLoop_some env.n_hosts
      ((List.range env.n_hosts).map
        (fun ID => env.indexFile ID (findLastRefinedGrid env.meshExists step)))
      (fun ID i => env.fieldFile ID i step) _ ID i hID hi hfile
    refine ⟨(mergeLoop env.n_hosts
      ((List.range env.n_hosts).map
        (fun ID => env.indexFile ID (findLastRefinedGrid env.meshExists step)))
      (fun ID i => env.fieldFile ID i step)
      (env.readFields (findLastRefinedGrid env.meshExists step))).1, ?_⟩
    unfold mergeFields
    simp only [hc, ne_eq, not_false_eq_true, if_true]
    simp

/-- The statement of `merge_noop_not_reported` for the two-host environment
without field files, with the hypothesis of its second part. -/
theorem merge_noop_not_reported_witness :
    (∀ ID, ID < twoHosts.n_hosts →
      ∀ i, i < (twoHosts.readFields (findLastRefinedGrid twoHosts.meshExists 3)).length →
        twoHosts.fieldFile ID i 3 = none) ∧
    (mergeFields twoHosts 3).1 = 0 ∧
    ∀ s f, Event.writeFields s f ∉ (mergeFields twoHosts 3).2 :=
  ⟨fun _ _ _ _ => rfl, (merge_noop_not_reported twoHosts 3).1,
    (merge_noop_not_reported twoHosts 3).2.1 (fun _ _ _ _ => rfl)⟩

/-! ## C12: failure of the external partitioner -/

/-- The write loop reads the environment only through `cdOk` and `MAX_INT`. -/
theorem writePartitions_env {V α : Type} [Inhabited α] (env env' : Env V α)
    (hcd : env.cdOk = env'.cdOk) (hmax : env.MAX_INT = env'.MAX_INT) (step total : Nat)
    (m : GlobalMesh V) (st : SliceState V) (imesh cLoc : List IntVector)
    (fields : List (List α)) (IDs : List Nat) (ev : List (Event V α)) :
    writePartitions env step total m st imesh cLoc fields IDs ev =
      writePartitions env' step total m st imesh cLoc fields IDs ev := by
  induction IDs generalizing ev with
  | nil => rfl
  | cons a IDs ih =>
    unfold writePartitions
    rw [hcd, hmax]
    simp only [ih]

/-- C12 as stated fails: with the strategy `METIS` and a partitioner that
reports the status `-4`, `decomposeMesh` returns 0, the value of a completed
decomposition, after slicing the mesh and writing the mesh, index and field
files of both partitions from the vector `[1, 0]` that the partitioner left:
cell 1 is in partition 0 and cell 0 in partition 1. -/
theorem partitioner_failure_counterexample :
    decomposeMesh twoHostsGraphFailure 0 = some (0,
      [Event.message 0, Event.cdWorkingDir, Event.loadMesh 0, Event.createFields 0,
       Event.readFields 0,
       Event.mkdir 0, Event.cdPartition 0,
       Event.writeMesh 0 0 ⟨[(0, 0), (1, 1), (0, 1)], [[1, 0], [1, 2], [2, 0]], [[0, 1, 2]]⟩
         [] [(1, [0])],
       Event.writeIndex 0 0 [1], Event.writeField 0 0 0 [9] [1], Event.cdWorkingDir,
       Event.mkdir 1, Event.cdPartition 1,
       Event.writeMesh 1 0 ⟨[(0, 0), (1, 0), (1, 1)], [[0, 1], [1, 2], [2, 0]], [[0, 1, 2]]⟩
         [] [(0, [2])],
       Event.writeIndex 1 0 [0], Event.writeField 1 0 0 [5] [0], Event.cdWorkingDir,
       Event.destroyFields]) := by
  decide

/-- C12, amended (status of the external partitioner).  The status that the
external routine reports is not read: for every environment, strategy and
step, replacing the status of the routine by any other status, with the
vector it writes unchanged, leaves the block assignment of `decomposeMetis`
and the whole run of `decomposeMesh` (the value returned, the slicing and
everything written) unchanged.  A reported failure is therefore not surfaced:
the run is the run of a success with the same vector. -/
theorem partitioner_status_not_read {V α : Type} [Inhabited V] [Inhabited α]
    (env : Env V α) (step : Nat)
    (status : Nat → IntVector → IntVector → Nat → IntVector → Int) :
    (∀ (m : GlobalMesh V) (total : Nat) (blockIndex : IntVector),
      decomposeMetis
          (fun n xadj adjncy parts b =>
            (status n xadj adjncy parts b, (env.ext.partGraph n xadj adjncy parts b).2))
          m total blockIndex =
        decomposeMetis env.ext.partGraph m total blockIndex) ∧
    decomposeMesh
        { env with
          ext := { env.ext with
            partGraph := fun n xadj adjncy parts b =>
              (status n xadj adjncy parts b, (env.ext.partGraph n xadj adjncy parts b).2) } }
        step =
      decomposeMesh env step := by
  refine ⟨fun _ _ _ => rfl, ?_⟩
  have hw := writePartitions_env
    { env with
      ext := { env.ext with
        partGraph := fun n xadj adjncy parts b =>
          (status n xadj adjncy parts b, (env.ext.partGraph n xadj adjncy parts b).2) } }
    env rfl rfl
  have hc : ∀ (m : GlobalMesh V) (total : Nat),
      chooseBlockIndex
        { env.ext with
          partGraph := fun n xadj adjncy parts b =>
            (status n xadj adjncy parts b, (env.ext.partGraph n xadj adjncy parts b).2) }
        env.dp m total = chooseBlockIndex env.ext env.dp m total := fun _ _ => rfl
  unfold decomposeMesh
  simp only [hw, hc]

/-! ## C13: the dual graph -/

theorem adjacencyRow_eq (gFOC gFNC : IntVector) (gBCS i : Nat) (c : Cell)
    (adjncy : IntVector) :
    adjacencyRow gFOC gFNC gBCS i c adjncy =
      adjncy ++ c.flatMap (neighbourAcross gFOC gFNC gBCS i) := by
  unfold adjacencyRow
  induction c generalizing adjncy with
  | nil => simp
  | cons f c ih =>
    rw [List.foldl_cons, ih, List.flatMap_cons, ← List.append_assoc]
    congr 1
    unfold neighbourAcross
    by_cases h1 : i = gFOC.getD f 0
    · rw [if_pos h1, if_pos h1]
      by_cases h2 : gFNC.getD f 0 < gBCS
      · rw [if_pos h2, if_pos h2]
      · rw [if_neg h2, if_neg h2, List.append_nil]
    · rw [if_neg h1, if_neg h1]
      by_cases h2 : gFOC.getD f 0 < gBCS
      · rw [if_pos h2, if_pos h2]
      · rw [if_neg h2, if_neg h2, List.append_nil]

/-- The offset of row `k`: the number of entries of the rows before it. -/
theorem buildAdjacency_fold {V : Type} (m : GlobalMesh V) (n : Nat) :
    (List.range n).foldl
      (fun (s : IntVector × IntVector) i =>
        (s.1 ++ [s.2.length],
          adjacencyRow m.gFOC m.gFNC m.gBCS i (m.gCells.getD i []) s.2))
      ([], []) =
    ((List.range n).map (fun k => ((List.range k).flatMap (neighbours m)).length),
      (List.range n).flatMap (neighbours m)) := by
  induction n with
  | zero => rfl
  | succ n ih =>
    rw [List.range_succ, List.foldl_append, ih]
    simp only [List.foldl_cons, List.foldl_nil, adjacencyRow_eq, List.map_append,
      List.flatMap_append, List.map_cons, List.map_nil, List.flatMap_cons, List.flatMap_nil,
      List.append_nil]
    rfl

theorem buildAdjacency_eq {V : Type} (m : GlobalMesh V) :
    buildAdjacency m =
      ((List.range (m.gBCS + 1)).map (fun k => ((List.range k).flatMap (neighbours m)).length),
        (List.range m.gBCS).flatMap (neighbours m)) := by
  unfold buildAdjacency
  rw [buildAdjacency_fold]
  simp only [List.range_succ, List.map_append, List.map_cons, List.map_nil]

theorem xadj_getD {V : Type} (m : GlobalMesh V) (k : Nat) (hk : k ≤ m.gBCS) :
    (buildAdjacency m).1.getD k 0 = ((List.range k).flatMap (neighbours m)).length := by
  rw [buildAdjacency_eq, List.getD_eq_getElem?_getD, List.getElem?_map,
    List.getElem?_range (by omega)]
  rfl

theorem flatMap_range_split {α : Type} (f : Nat → List α) (n i : Nat) (hi : i < n) :
    ∃ rest, (List.range n).flatMap f = (List.range i).flatMap f ++ f i ++ rest := by
  induction n with
  | zero => omega
  | succ n ih =>
    rw [List.range_succ, List.flatMap_append]
    by_cases h : i < n
    · obtain ⟨rest, hr⟩ := ih h
      exact ⟨rest ++ [n].flatMap f, by rw [hr, List.append_assoc]⟩
    · have : i = n := by omega
      subst this
      exact ⟨[], by simp⟩

theorem adjRow_buildAdjacency {V : Type} (m : GlobalMesh V) (i : Nat) (hi : i < m.gBCS) :
    adjRow (buildAdjacency m).1 (buildAdjacency m).2 i = neighbours m i := by
  unfold adjRow
  rw [xadj_getD m i (by omega), xadj_getD m (i + 1) (by omega)]
  have h2 : (buildAdjacency m).2 = (List.range m.gBCS).flatMap (neighbours m) := by
    rw [buildAdjacency_eq]
  obtain ⟨rest, hr⟩ := flatMap_range_split (neighbours m) m.gBCS i hi
  rw [h2, hr, List.range_succ, List.flatMap_append, List.append_assoc, List.drop_left]
  simp

theorem mem_neighbours {V : Type} (m : GlobalMesh V) (i j : Nat) :
    j ∈ neighbours m i ↔ ∃ f ∈ m.gCells.getD i [],
      (i = m.gFOC.getD f 0 ∧ m.gFNC.getD f 0 < m.gBCS ∧ j = m.gFNC.getD f 0) ∨
      (i ≠ m.gFOC.getD f 0 ∧ m.gFOC.getD f 0 < m.gBCS ∧ j = m.gFOC.getD f 0) := by
  unfold neighbours
  rw [List.mem_flatMap]
  constructor
  · rintro ⟨f, hf, hj⟩
    refine ⟨f, hf, ?_⟩
    unfold neighbourAcross at hj
    by_cases h1 : i = m.gFOC.getD f 0
    · rw [if_pos h1] at hj
      by_cases h2 : m.gFNC.getD f 0 < m.gBCS
      · rw [if_pos h2] at hj
        exact Or.inl ⟨h1, h2, List.mem_singleton.mp hj⟩
      · rw [if_neg h2] at hj; cases hj
    · rw [if_neg h1] at hj
      by_cases h2 : m.gFOC.getD f 0 < m.gBCS
      · rw [if_pos h2] at hj
        exact Or.inr ⟨h1, h2, List.mem_singleton.mp hj⟩
      · rw [if_neg h2] at hj; cases hj
  · rintro ⟨f, hf, h⟩
    refine ⟨f, hf, ?_⟩
    unfold neighbourAcross
    rcases h with ⟨h1, h2, h3⟩ | ⟨h1, h2, h3⟩
    · rw [if_pos h1, if_pos h2]; exact List.mem_singleton.mpr h3
    · rw [if_neg h1, if_pos h2]; exact List.mem_singleton.mpr h3

theorem neighbours_iff_share {V : Type} (m : GlobalMesh V) (hwf : DualWellFormed m)
    (i j : Nat) (hi : i < m.gBCS) (hj : j < m.gBCS) (hij : i ≠ j) :
    j ∈ neighbours m i ↔ ∃ f, f ∈ m.gCells.getD i [] ∧ f ∈ m.gCells.getD j [] := by
  rw [mem_neighbours]
  constructor
  · rintro ⟨f, hf, h⟩
    obtain ⟨hfn, hside⟩ := hwf.1 i hi f hf
    refine ⟨f, hf, ?_⟩
    rcases h with ⟨h1, h2, h3⟩ | ⟨h1, h2, h3⟩
    · have := (hwf.2 f hfn (by omega) h2).2
      rw [← h3] at this
      exact this
    · have hfnc : m.gFNC.getD f 0 = i := by
        rcases hside with h | h
        · exact absurd h.symm h1
        · exact h
      have := (hwf.2 f hfn h2 (by omega)).1
      rw [← h3] at this
      exact this
  · rintro ⟨f, hfi, hfj⟩
    obtain ⟨_, hsi⟩ := hwf.1 i hi f hfi
    obtain ⟨_, hsj⟩ := hwf.1 j hj f hfj
    refine ⟨f, hfi, ?_⟩
    rcases hsi with h | h
    · refine Or.inl ⟨h.symm, ?_⟩
      rcases hsj with h' | h'
      · exact absurd (h.symm.trans h') hij
      · exact ⟨by omega, h'.symm⟩
    · rcases hsj with h' | h'
      · exact Or.inr ⟨by omega, by omega, h'.symm⟩
      · exact absurd (h.symm.trans h') hij

/-- C13 (dual graph construction).  For a mesh in which every facet of an
interior cell is a facet of the mesh with that cell on one side and every
facet with interior cells on both sides occurs in both cells: the arrays
`xadj` and `adjncy` that `decomposeMetis` builds satisfy `|xadj| = gBCS + 1`,
`xadj[0] = 0`, `xadj[i] ≤ xadj[i+1]` for every interior cell `i`,
`xadj[gBCS] = |adjncy|`, every entry of `adjncy` is below `gBCS`, and for
interior cells `i ≠ j`, `j` occurs in row `i` (the entries of `adjncy` from
`xadj[i]` up to `xadj[i+1]`) exactly when the two cells share a facet, so that
`j` is in row `i` exactly when `i` is in row `j`. -/
theorem dual_graph {V : Type} (m : GlobalMesh V) (hwf : DualWellFormed m) :
    (buildAdjacency m).1.length = m.gBCS + 1 ∧
    (buildAdjacency m).1.getD 0 0 = 0 ∧
    (∀ i, i < m.gBCS → (buildAdjacency m).1.getD i 0 ≤ (buildAdjacency m).1.getD (i + 1) 0) ∧
    (buildAdjacency m).1.getD m.gBCS 0 = (buildAdjacency m).2.length ∧
    (∀ x ∈ (buildAdjacency m).2, x < m.gBCS) ∧
    (∀ i j, i < m.gBCS → j < m.gBCS → i ≠ j →
      (j ∈ adjRow (buildAdjacency m).1 (buildAdjacency m).2 i ↔
        ∃ f, f ∈ m.gCells.getD i [] ∧ f ∈ m.gCells.getD j [])) ∧
    (∀ i j, i < m.gBCS → j < m.gBCS → i ≠ j →
      (j ∈ adjRow (buildAdjacency m).1 (buildAdjacency m).2 i ↔
        i ∈ adjRow (buildAdjacency m).1 (buildAdjacency m).2 j)) := by
  have hrow : ∀ i j, i < m.gBCS → j < m.gBCS → i ≠ j →
      (j ∈ adjRow (buildAdjacency m).1 (buildAdjacency m).2 i ↔
        ∃ f, f ∈ m.gCells.getD i [] ∧ f ∈ m.gCells.getD j []) := by
    intro i j hi hj hij
    rw [adjRow_buildAdjacency m i hi]
    exact neighbours_iff_share m hwf i j hi hj hij
  refine ⟨?_, ?_, ?_, ?_, ?_, hrow, ?_⟩
  · rw [buildAdjacency_eq]; simp
  · rw [xadj_getD m 0 (by omega)]; rfl
  · intro i hi
    rw [xadj_getD m i (by omega), xadj_getD m (i + 1) (by omega), List.range_succ,
      List.flatMap_append, List.length_append]
    omega
  · rw [xadj_getD m m.gBCS (Nat.le_refl _)]
    have h2 : (buildAdjacency m).2 = (List.range m.gBCS).flatMap (neighbours m) := by
      rw [buildAdjacency_eq]
    rw [h2]
  · intro x hx
    have h2 : (buildAdjacency m).2 = (List.range m.gBCS).flatMap (neighbours m) := by
      rw [buildAdjacency_eq]
    rw [h2, List.mem_flatMap] at hx
    obtain ⟨i, _, hxi⟩ := hx
    obtain ⟨f, _, h⟩ := (mem_neighbours m i x).mp hxi
    rcases h with ⟨_, h2, h3⟩ | ⟨_, h2, h3⟩ <;> omega
  · intro i j hi hj hij
    rw [hrow i j hi hj hij, hrow j i hj hi (fun h => hij h.symm)]
    constructor
    · rintro ⟨f, h1, h2⟩; exact ⟨f, h2, h1⟩
    · rintro ⟨f, h1, h2⟩; exact ⟨f, h2, h1⟩

/-- The statement of `dual_graph` on the two-triangle mesh, with its arrays. -/
theorem dual_graph_witness :
    buildAdjacency twoCells = ([0, 1, 2], [1, 0]) ∧
    (buildAdjacency twoCells).1.length = twoCells.gBCS + 1 ∧
    (buildAdjacency twoCells).1.getD 0 0 = 0 ∧
    (∀ i, i < twoCells.gBCS →
      (buildAdjacency twoCells).1.getD i 0 ≤ (buildAdjacency twoCells).1.getD (i + 1) 0) ∧
    (buildAdjacency twoCells).1.getD twoCells.gBCS 0 = (buildAdjacency twoCells).2.length ∧
    (∀ x ∈ (buildAdjacency twoCells).2, x < twoCells.gBCS) ∧
    (∀ i j, i < twoCells.gBCS → j < twoCells.gBCS → i ≠ j →
      (j ∈ adjRow (buildAdjacency twoCells).1 (buildAdjacency twoCells).2 i ↔
        ∃ f, f ∈ twoCells.gCells.getD i [] ∧ f ∈ twoCells.gCells.getD j [])) ∧
    (∀ i j, i < twoCells.gBCS → j < twoCells.gBCS → i ≠ j →
      (j ∈ adjRow (buildAdjacency twoCells).1 (buildAdjacency twoCells).2 i ↔
        i ∈ adjRow (buildAdjacency twoCells).1 (buildAdjacency twoCells).2 j)) :=
  ⟨by decide, dual_graph twoCells (by decide)⟩

/-! ## C14: the bucket counts of the `XYZ` strategy -/

/-- C14 (cartesian rescaling), evaluated on the code.  With `dp.type = 0`
(`XYZ`) the bucket counts that `decomposeXYZ` is called with are the hint
`dp.n` itself, for every partition count: lines 809-814 compute the scaled
counts into a local vector that line 815 does not pass.  With a
`decomposeXYZ` that answers with the counts it received, the hint `[2, 1, 1]`
comes back as `[2, 1, 1]` for `total = 2` and for `total = 16`, where the
scale factor `(16 / 2)^(1/3) = 2` would give `[4, 2, 2]`. -/
theorem xyz_counts_are_the_hint :
    (∀ {V : Type} (ext : Strategies) (n : IntVector) (m : GlobalMesh V) (total : Nat),
      chooseBlockIndex ext { n := n, type := 0 } m total =
        some (ext.decomposeXYZ n
          (decomposeMetis ext.partGraph m total (List.replicate m.gBCS 0)))) ∧
    chooseBlockIndex { partGraph := fun _ _ _ _ b => (1, b), decomposeXYZ := fun n _ => n }
      { n := [2, 1, 1], type := 0 } twoCells 2 = some [2, 1, 1] ∧
    chooseBlockIndex { partGraph := fun _ _ _ _ b => (1, b), decomposeXYZ := fun n _ => n }
      { n := [2, 1, 1], type := 0 } twoCells 16 = some [2, 1, 1] := by
  refine ⟨?_, by decide, by decide⟩
  intro V ext n m total
  rfl

/-! ## C15: the step of the mesh and of the index logs -/

theorem findLoop_some (meshExists : Nat → Bool) (r s : Nat)
    (h : findLoop meshExists r = some s) :
    s ≤ r ∧ meshExists s = true ∧ ∀ t, s < t → t ≤ r → meshExists t = false := by
  induction r with
  | zero =>
    unfold findLoop at h
    by_cases h0 : meshExists 0 = true
    · rw [if_pos h0] at h
      cases h
      exact ⟨Nat.le_refl _, h0, fun t h1 h2 => by omega⟩
    · rw [if_neg h0] at h; cases h
  | succ r ih =>
    unfold findLoop at h
    by_cases h0 : meshExists (r + 1) = true
    · rw [if_pos h0] at h
      cases h
      exact ⟨Nat.le_refl _, h0, fun t h1 h2 => by omega⟩
    · rw [if_neg h0] at h
      obtain ⟨h1, h2, h3⟩ := ih h
      refine ⟨by omega, h2, ?_⟩
      intro t ht1 ht2
      by_cases ht : t = r + 1
      · subst ht; simpa using h0
      · exact h3 t ht1 (by omega)

theorem findLoop_none (meshExists : Nat → Bool) (r : Nat)
    (h : findLoop meshExists r = none) : ∀ t, t ≤ r → meshExists t = false := by
  induction r with
  | zero =>
    unfold findLoop at h
    by_cases h0 : meshExists 0 = true
    · rw [if_pos h0] at h; cases h
    · intro t ht
      have : t = 0 := by omega
      subst this; simpa using h0
  | succ r ih =>
    unfold findLoop at h
    by_cases h0 : meshExists (r + 1) = true
    · rw [if_pos h0] at h; cases h
    · rw [if_neg h0] at h
      intro t ht
      by_cases ht' : t = r + 1
      · subst ht'; simpa using h0
      · exact ih h t (by omega)

/-- C15 (mesh-step fallback).  For every requested step `r`: when a mesh file
exists at some step of `[0, r]`, `findLastRefinedGrid` returns a step `s ≤ r`
with a mesh file such that no step of `(s, r]` has one, that is the greatest
such step; when no step of `[0, r]` has a mesh file it returns `r`.
`mergeFields` reads the index log of every partition at that step and only
there, and every field file at the requested step `r` and only there: these
are the reads it does, and its result is the same in every environment that
agrees with the given one on the number of hosts, the mesh files, the fields
read, the index logs at the returned step and the field files at step `r`. -/
theorem mesh_step_fallback {V α : Type} (env : Env V α) (r : Nat) :
    ((∃ s, s ≤ r ∧ env.meshExists s = true) →
      findLastRefinedGrid env.meshExists r ≤ r ∧
      env.meshExists (findLastRefinedGrid env.meshExists r) = true ∧
      ∀ t, findLastRefinedGrid env.meshExists r < t → t ≤ r → env.meshExists t = false) ∧
    ((∀ s, s ≤ r → env.meshExists s = false) → findLastRefinedGrid env.meshExists r = r) ∧
    (∀ ID t, Event.readIndex ID t ∈ (mergeFields env r).2 ↔
      ID < env.n_hosts ∧ t = findLastRefinedGrid env.meshExists r) ∧
    (∀ ID i t, Event.readField ID i t ∈ (mergeFields env r).2 ↔
      ID < env.n_hosts ∧
      i < (env.readFields (findLastRefinedGrid env.meshExists r)).length ∧ t = r) ∧
    (∀ env' : Env V α, env'.n_hosts = env.n_hosts → env'.meshExists = env.meshExists →
      env'.readFields = env.readFields →
      (∀ ID, env'.indexFile ID (findLastRefinedGrid env.meshExists r) =
        env.indexFile ID (findLastRefinedGrid env.meshExists r)) →
      (∀ ID i, env'.fieldFile ID i r = env.fieldFile ID i r) →
      mergeFields env' r = mergeFields env r) := by
  refine ⟨?_, ?_, ?_, ?_, ?_⟩
  · rintro ⟨s, hs, hex⟩
    unfold findLastRefinedGrid
    cases h : findLoop env.meshExists r with
    | none =>
      have := findLoop_none env.meshExists r h s hs
      rw [hex] at this; cases this
    | some s' => exact findLoop_some env.meshExists r s' h
  · intro hnone
    unfold findLastRefinedGrid
    cases h : findLoop env.meshExists r with
    | none => rfl
    | some s' =>
      obtain ⟨h1, h2, _⟩ := findLoop_some env.meshExists r s' h
      rw [hnone s' h1] at h2; cases h2
  · intro ID t
    unfold mergeFields
    dsimp only
    split_ifs <;> simp <;> constructor
    · rintro ⟨a, ha, rfl, rfl⟩; exact ⟨ha, rfl⟩
    · rintro ⟨h, rfl⟩; exact ⟨ID, h, rfl, rfl⟩
    · rintro ⟨a, ha, rfl, rfl⟩; exact ⟨ha, rfl⟩
    · rintro ⟨h, rfl⟩; exact ⟨ID, h, rfl, rfl⟩
  · intro ID i t
    unfold mergeFields
    dsimp only
    split_ifs <;> simp <;> constructor
    · rintro ⟨a, ha, b, hb, rfl, rfl, rfl⟩; exact ⟨ha, hb, rfl⟩
    · rintro ⟨h1, h2, rfl⟩; exact ⟨ID, h1, i, h2, rfl, rfl, rfl⟩
    · rintro ⟨a, ha, b, hb, rfl, rfl, rfl⟩; exact ⟨ha, hb, rfl⟩
    · rintro ⟨h1, h2, rfl⟩; exact ⟨ID, h1, i, h2, rfl, rfl, rfl⟩
  · intro env' h1 h2 h3 h4 h5
    unfold mergeFields
    have hidx : (fun ID => env'.indexFile ID (findLastRefinedGrid env.meshExists r)) =
        (fun ID => env.indexFile ID (findLastRefinedGrid env.meshExists r)) := funext h4
    have hfld : (fun ID i => env'.fieldFile ID i r) = (fun ID i => env.fieldFile ID i r) :=
      funext (fun ID => funext (fun i => h5 ID i))
    simp only [h1, h2, h3, hidx, hfld]

/-- The first two parts of `mesh_step_fallback` evaluated: with the only mesh
file at step 2 the request for step 5 falls back to step 2, and without any
mesh file the request for step 5 stays at step 5. -/
theorem mesh_step_fallback_witness :
    findLastRefinedGrid (fun s => decide (s = 2)) 5 = 2 ∧
    findLastRefinedGrid (fun _ => false) 5 = 5 ∧
    (∃ s, s ≤ 5 ∧ ({ twoHostsMerged with meshExists := fun s => decide (s = 2) } :
      Env (Int × Int) Int).meshExists s = true) ∧
    findLastRefinedGrid (fun s => decide (s = 2)) 5 ≤ 5 ∧
    (fun s => decide (s = 2)) (findLastRefinedGrid (fun s => decide (s = 2)) 5) = true ∧
    ∀ t, findLastRefinedGrid (fun s => decide (s = 2)) 5 < t → t ≤ 5 →
      (fun s => decide (s = 2)) t = false :=
  ⟨by decide, by decide, ⟨2, by decide, by decide⟩,
    (mesh_step_fallback { twoHostsMerged with meshExists := fun s => decide (s = 2) } 5).1
      ⟨2, by decide, by decide⟩⟩

/-! ## C16: the expansion in place -/

theorem expandSpec_block (block : Nat) (L : IntVector) (k : Nat)
    (hk : k < L.length) :
    ((expandSpec block L).drop (k * block)).take block =
      (List.range block).map (fun r => L.getD k 0 * block + r) := by
  apply List.ext_getElem?
  intro j
  rw [List.getElem?_take, List.getElem?_map]
  by_cases hj : j < block
  · have hkb : k * block + block ≤ L.length * block := by
      have : (k + 1) * block ≤ L.length * block := Nat.mul_le_mul_right block hk
      rw [Nat.add_mul] at this; omega
    have hlt : k * block + j < L.length * block := by omega
    have hdiv : (k * block + j) / block = k :=
      Nat.div_eq_of_lt_le (by omega) (by rw [Nat.add_mul]; omega)
    have hmod : (k * block + j) % block = j := by
      rw [Nat.mul_comm, Nat.mul_add_mod, Nat.mod_eq_of_lt hj]
    rw [if_pos hj, List.getElem?_drop, List.getElem?_range hj]
    unfold expandSpec
    rw [List.getElem?_map, List.getElem?_range hlt]
    simp only [Option.map_some', hdiv, hmod]
  · rw [if_neg hj, List.getElem?_eq_none (by simpa using Nat.le_of_not_lt hj)]
    rfl

theorem expandSpec_one (L : IntVector) : expandSpec 1 L = L := by
  apply List.ext_getElem?
  intro p
  unfold expandSpec
  rw [List.getElem?_map]
  by_cases hp : p < L.length
  · rw [List.getElem?_range (by omega), List.getElem?_eq_getElem hp]
    simp [List.getElem?_eq_getElem hp, Nat.mod_one]
  · rw [List.getElem?_eq_none (by simpa using Nat.le_of_not_lt hp),
      List.getElem?_eq_none (Nat.le_of_not_lt hp)]
    rfl

/-- C16 (expansion in place).  For every index log `L`, the empty one
included, and every `block` of at least 1, the "Expand cLoc" loop on `L`
ends and leaves a log `E` of length `|L| * block` in which, for every
position `k` below `|L|`, the slots `k*block .. k*block+block-1` hold
`L[k]*block, ..., L[k]*block+block-1` of the original `L[k]`, in this order:
no value twice, and a value is in these slots exactly when it lies in
`[L[k]*block, L[k]*block + block)`.  For `block = 1`, `E = L`. -/
theorem expansion_in_place (block : Nat) (L : IntVector) (hb : 1 ≤ block) :
    ∃ E, expandCF block L = some E ∧ E.length = L.length * block ∧
      (∀ k, k < L.length →
        (E.drop (k * block)).take block =
          (List.range block).map (fun r => L.getD k 0 * block + r)) ∧
      (∀ k, k < L.length → ((E.drop (k * block)).take block).Nodup ∧
        ∀ d, d ∈ (E.drop (k * block)).take block ↔
          L.getD k 0 * block ≤ d ∧ d < L.getD k 0 * block + block) ∧
      (block = 1 → E = L) := by
  refine ⟨expandSpec block L, expandCF_spec block hb L, length_expandSpec block L,
    fun k hk => expandSpec_block block L k hk, ?_, ?_⟩
  · intro k hk
    rw [expandSpec_block block L k hk]
    constructor
    · apply List.Nodup.map _ (List.nodup_range block)
      intro a b hab
      simpa using hab
    · intro d
      rw [List.mem_map]
      constructor
      · rintro ⟨r, hr, rfl⟩
        have := List.mem_range.mp hr
        omega
      · rintro ⟨h1, h2⟩
        exact ⟨d - L.getD k 0 * block, List.mem_range.mpr (by omega), by omega⟩
  · intro h1
    subst h1
    exact expandSpec_one L

/-- The statement of `expansion_in_place` for `block = 3` and the log
`[2, 5]`, with the expanded log and the expansion of the empty log. -/
theorem expansion_in_place_witness :
    expandCF 3 [2, 5] = some [6, 7, 8, 15, 16, 17] ∧ expandCF 3 [] = some [] ∧
    expandCF 1 [4, 0, 9] = some [4, 0, 9] ∧
    ∃ E, expandCF 3 [2, 5] = some E ∧ E.length = ([2, 5] : IntVector).length * 3 ∧
      (∀ k, k < ([2, 5] : IntVector).length →
        (E.drop (k * 3)).take 3 =
          (List.range 3).map (fun r => ([2, 5] : IntVector).getD k 0 * 3 + r)) ∧
      (∀ k, k < ([2, 5] : IntVector).length → ((E.drop (k * 3)).take 3).Nodup ∧
        ∀ d, d ∈ (E.drop (k * 3)).take 3 ↔
          ([2, 5] : IntVector).getD k 0 * 3 ≤ d ∧ d < ([2, 5] : IntVector).getD k 0 * 3 + 3) ∧
      (3 = 1 → E = [2, 5]) :=
  ⟨by decide, by decide, by decide, expansion_in_place 3 [2, 5] (by decide)⟩

end Prepare
